import Mathlib

/-!
# YED_SkillShop: notetag parsing and cost resolution

A shallow embedding of `demo/js/plugins/YED_SkillShop.js`.

* JavaScript strings are lists of characters (`Str`).
* Numbers are doubles: `Number` of a run of decimal digits is the double
  nearest to its value (`toDouble`), which is the value itself up to `2^53`, and
  `Infinity` from `2^1024 - 2^970` on; other numerals are kept as text.
* `toUpperCase`, `toLowerCase` and the canonicalisation of the `i` flag act on
  the ASCII letters.
* The five regular expressions of `YED.SkillShop.Regexp` are values of a small
  regular-expression syntax (`Regex`); `String.prototype.match` on a
  non-global expression is the backtracking matcher of ECMA-262 (a matcher
  takes the rest of the input, the captures so far and a continuation; a greedy
  quantifier first tries one more repetition and falls back to the
  continuation), tried at every start position from the left.
* Mutation of a database object is explicit state passing.
-/

namespace YED.SkillShop

/-- A JavaScript string. -/
abbrev Str := List Char

/-! ## Regular expressions -/

/-- A pattern element that consumes exactly one character. -/
inductive Atom where
  /-- A literal pattern character; under the `i` flag it is compared after
  canonicalisation (upper-casing) of both sides. -/
  | lit (c : Char)
  /-- The class `\d`. -/
  | digit
  /-- The class `[ ]`. -/
  | blank
  /-- The wildcard `.`: every character except the line terminators. -/
  | dot
  deriving DecidableEq, Repr

/-- The fragment of the regular-expression syntax the plugin uses. -/
inductive Regex where
  /-- The empty pattern. -/
  | eps
  /-- One character. -/
  | atom (a : Atom)
  /-- Greedy `a*`. -/
  | star (a : Atom)
  /-- Greedy `a+`. -/
  | plus (a : Atom)
  /-- A capturing group `( r )`; groups are numbered in the order they close,
  which for patterns without nested groups is the order they open. -/
  | group (r : Regex)
  /-- The disjunction `r₁|r₂`, left alternative first. -/
  | alt (r₁ r₂ : Regex)
  /-- The concatenation `r₁r₂`. -/
  | seq (r₁ r₂ : Regex)
  deriving DecidableEq, Repr

/-- Line terminators, which `.` refuses: LF, CR, LS, PS. -/
def isLineTerminator (c : Char) : Bool :=
  c.toNat == 0x0A || c.toNat == 0x0D || c.toNat == 0x2028 || c.toNat == 0x2029

/-- Does the atom accept the input character (flag `i` set)? Canonicalisation
maps the letters `a`-`z` to `A`-`Z`; a character outside ASCII is never
canonicalised to an ASCII one, so on patterns made of ASCII characters it is
`Char.toUpper`. -/
def Atom.test : Atom → Char → Bool
  | .lit p, c => p.toUpper == c.toUpper
  | .digit, c => c.isDigit
  | .blank, c => c == ' '
  | .dot, c => !isLineTerminator c

/-- Greedy repetition of a one-character test: try one more repetition, and if
everything after it fails, hand the current position to the continuation. -/
def starGo {α : Type} (p : Char → Bool) (k : Str → Option α) : Str → Option α
  | [] => k []
  | c :: rest =>
    if p c then (starGo p k rest).orElse (fun _ => k (c :: rest)) else k (c :: rest)

/-- The part of `s` consumed when the rest of the input is `rest`. -/
def consumed (s rest : Str) : Str := s.take (s.length - rest.length)

/-- The backtracking matcher: match `r` at the head of the input, then run the
continuation `k` on what is left and the captures; `none` is failure. -/
def Regex.matchAt {α : Type} : Regex → Str → List Str → (Str → List Str → Option α) → Option α
  | .eps, s, caps, k => k s caps
  | .atom a, s, caps, k =>
    match s with
    | [] => none
    | c :: rest => if a.test c then k rest caps else none
  | .star a, s, caps, k => starGo a.test (fun rest => k rest caps) s
  | .plus a, s, caps, k =>
    match s with
    | [] => none
    | c :: rest => if a.test c then starGo a.test (fun rest' => k rest' caps) rest else none
  | .group r, s, caps, k =>
    r.matchAt s caps (fun rest caps' => k rest (caps' ++ [consumed s rest]))
  | .alt r₁ r₂, s, caps, k =>
    (r₁.matchAt s caps k).orElse (fun _ => r₂.matchAt s caps k)
  | .seq r₁ r₂, s, caps, k =>
    r₁.matchAt s caps (fun rest caps' => r₂.matchAt rest caps' k)

/-- A match array: `m[0]` is the matched text, `m[1], m[2], ...` the captures. -/
abbrev Match := List Str

/-- The element `m[i]` of a match array (a string for every group of the
patterns below, none of which is optional). -/
def Match.idx (m : Match) (i : Nat) : Str := m.getD i []

/-- The match array when `r` matches at the very start of `s`. -/
def Regex.matchHere (r : Regex) (s : Str) : Option Match :=
  r.matchAt s [] (fun rest caps => some (consumed s rest :: caps))

/-- The result of `str.match(r)` for a non-global `r`: the match array of the
leftmost match (start positions are tried from the left), or `none` for
`null`. -/
def Regex.exec (r : Regex) : Str → Option Match
  | [] => r.matchHere []
  | c :: rest => (r.matchHere (c :: rest)).orElse (fun _ => r.exec rest)

/-- The concatenation of a list of patterns. -/
def Regex.cat : List Regex → Regex
  | [] => .eps
  | r :: rs => .seq r (Regex.cat rs)

/-- A run of literal pattern characters. -/
def Regex.str (s : String) : Regex :=
  Regex.cat (s.toList.map (fun c => .atom (.lit c)))

/-! ## The pattern table (`YED.SkillShop.Regexp`) -/

namespace Regexp

/-- Gold cost: `/<buy cost gold:[ ]*(\d+)>/i`. -/
def GOLD_COST : Regex :=
  .cat [.str "<buy cost gold:", .star .blank, .group (.plus .digit), .str ">"]

/-- Item/Armor/Weapon cost: `/<buy cost (.+) (\d+):[ ]*(\d+)>/i`. -/
def ITEM_COST : Regex :=
  .cat [.str "<buy cost ", .group (.plus .dot), .str " ", .group (.plus .digit), .str ":",
    .star .blank, .group (.plus .digit), .str ">"]

/-- Variable cost: `/<buy cost variable (\d+):[ ]*(\d+)>/i`. -/
def VARIABLE_COST : Regex :=
  .cat [.str "<buy cost variable ", .group (.plus .digit), .str ":", .star .blank,
    .group (.plus .digit), .str ">"]

/-- Variable requirement: `/<buy require variable (\d+):[ ]*(\d+)>/i`. -/
def VARIABLE_REQUIRE : Regex :=
  .cat [.str "<buy require variable ", .group (.plus .digit), .str ":", .star .blank,
    .group (.plus .digit), .str ">"]

/-- Switch requirement: `/<buy require switch (\d+):[ ]*(true|false)>/i`. -/
def SWITCH_NEED : Regex :=
  .cat [.str "<buy require switch ", .group (.plus .digit), .str ":", .star .blank,
    .group (.alt (.str "true") (.str "false")), .str ">"]

end Regexp

/-! ## Values -/

/-- A value in a numeric position of the cost record. -/
inductive Value where
  /-- The value `undefined` of a property that was never assigned. -/
  | undefined
  /-- A natural number (`Number` makes only those that a double holds). -/
  | nat (n : Nat)
  /-- The number `Infinity`. -/
  | infinity
  /-- The number `Number(s)` for a text `s` that is not a run of decimal
  digits (sign, fraction, exponent, radix, blanks, or not a numeral at all:
  `NaN`); the text is kept and the numeral is not evaluated, so two such
  values with different texts may stand for the same number. -/
  | ofText (s : Str)
  deriving DecidableEq, Repr

/-- The value of a run of decimal digits, read in base ten. -/
def decimal (s : Str) : Nat :=
  s.foldl (fun acc c => 10 * acc + (c.toNat - '0'.toNat)) 0

/-- The number `2^1024`, the least power of two that is too large for a double. -/
def doubleLimit : Nat :=
  179769313486231590772930519078902473361797697894230657273430081157732675805500963132708477322407536021120113879871393357658789768814416622492847430639474124377767893424865485276302219601246094119453082952085005768838150682342462881473913110540827237163350510684586298239947245938479716304835356329624224137216

/-- The number of halvings that bring `n` below `2^53`: the exponent `e` for
which `n / 2^e` has the 53 bits of a double's significand. -/
def halvings : Nat → Nat → Nat
  | 0, _ => 0
  | fuel + 1, n => if n < 9007199254740992 then 0 else halvings fuel (n / 2) + 1

/-- The Number value for a natural number: the nearest double, the one with the
even significand when two are as near, and `Infinity` when that is `2^1024` or
more. Below `2^53 = 9007199254740992` every natural number is a double. -/
def toDouble (n : Nat) : Value :=
  if n < 9007199254740992 then .nat n
  else
    let e := halvings n n
    let q := n / 2 ^ e
    let r := n % 2 ^ e
    let half := 2 ^ (e - 1)
    let q' := if half < r ∨ (r = half ∧ q % 2 = 1) then q + 1 else q
    if q' * 2 ^ e < doubleLimit then .nat (q' * 2 ^ e) else .infinity

/-- The conversion `Number(s)` of a string: the empty string is `0` and a run of
decimal digits is the double nearest to its value (for a numeral of more than
20 significant digits ECMA-262 also allows the double nearest to the numeral
cut after the 20th digit; engines round the numeral itself, as here). Other
texts are not evaluated. -/
def Number (s : Str) : Value :=
  if s.all Char.isDigit then toDouble (decimal s) else .ofText s

/-- The method `String.prototype.toUpperCase`, on ASCII letters; other
characters are left as they are (the Unicode case tables are not embedded). -/
def toUpperCase (s : Str) : Str := s.map Char.toUpper

/-- The method `String.prototype.toLowerCase`, on ASCII letters; other
characters are left as they are. -/
def toLowerCase (s : Str) : Str := s.map Char.toLower

/-- Is the character a separator of `/[\r\n]+/`? -/
def isNewline (c : Char) : Bool := c == '\r' || c == '\n'

/-- The call `note.split(/[\r\n]+/)`: the pieces between maximal runs of CR and
LF. A separator run at the start or at the end leaves an empty piece there,
and the empty string splits into one empty piece. -/
def splitLines : Str → List Str
  | [] => [[]]
  | c :: rest =>
    if isNewline c then
      match rest with
      | [] => [[], []]
      | d :: _ => if isNewline d then splitLines rest else [] :: splitLines rest
    else
      match splitLines rest with
      | [] => [[c]]
      | l :: ls => (c :: l) :: ls

/-! ## The data model -/

/-- The record `obj._buyCost`. An `itemCost` entry is `[type, id, number]`, a
`variableCost` entry `[id, number]`, a `switchRequire` entry `[id, flag]`. -/
structure BuyCost where
  goldCost : Value
  itemCost : List (Str × Value × Value)
  variableCost : List (Value × Value)
  switchRequire : List (Value × Bool)
  deriving DecidableEq, Repr

/-- The members of the object `Utils`. -/
inductive UtilsMember where
  | parameters
  | processParameters
  | processNotetags
  | _processProperties
  | _processMethods
  | _processNotetag
  | getBuyCostGold
  | getBuyCostItems
  deriving DecidableEq, Repr

/-- A property read `Utils[name]`; `none` is `undefined`. -/
def Utils.member (name : String) : Option UtilsMember :=
  if name = "parameters" then some .parameters
  else if name = "processParameters" then some .processParameters
  else if name = "processNotetags" then some .processNotetags
  else if name = "_processProperties" then some ._processProperties
  else if name = "_processMethods" then some ._processMethods
  else if name = "_processNotetag" then some ._processNotetag
  else if name = "getBuyCostGold" then some .getBuyCostGold
  else if name = "getBuyCostItems" then some .getBuyCostItems
  else none

/-- A database object (a state, skill, item, weapon or armor): its note text and
the two properties the plugin adds, `none` while they are `undefined`. -/
structure DataObject where
  note : Str
  _buyCost : Option BuyCost
  getBuyCost : Option UtilsMember
  deriving DecidableEq, Repr

/-- A database table: `none` is `null`, which the engine keeps at index 0. -/
abbrev DataTable := List (Option DataObject)

/-- The global tables the plugin reads. -/
structure Database where
  dataStates : DataTable
  dataSkills : DataTable
  dataItems : DataTable
  dataWeapons : DataTable
  dataArmors : DataTable
  deriving DecidableEq, Repr

/-- What `PluginManager.parameters(...)` returns: a string for each parameter
that is present. -/
abbrev PluginParameters := String → Option Str

/-- The object `Utils.parameters`. -/
structure Parameters where
  defaultPrice : Value
  requirementsText : Option Str
  deriving DecidableEq, Repr

/-- The object `Utils.parameters` before `processParameters` has run: `{}`. -/
def Utils.parameters : Parameters := { defaultPrice := .undefined, requirementsText := none }

/-! ## The operations (`YED.SkillShop.Utils`) -/

/-- The operand chosen by `x || d` for a parameter `x`: `undefined` and the
empty string are falsy. -/
def orDefault {α : Type} (x : Option Str) (ifString : Str → α) (ifDefault : α) : α :=
  match x with
  | none => ifDefault
  | some s => if s = [] then ifDefault else ifString s

/-- The function `Utils.processParameters`: `Number(parameters['Default Price'] || 0)`
and `String(parameters['Requirements Text'] || 'Requirements')`. -/
def processParameters (parameters : PluginParameters) : Parameters :=
  { defaultPrice := orDefault (parameters "Default Price") Number (.nat 0)
    requirementsText := some (orDefault (parameters "Requirements Text") id "Requirements".toList) }

/-- The function `Utils._processProperties`: a fresh `_buyCost` record. -/
def _processProperties (parameters : Parameters) (obj : DataObject) : DataObject :=
  { obj with
    _buyCost := some
      { goldCost := parameters.defaultPrice
        itemCost := []
        variableCost := []
        switchRequire := [] } }

/-- The function `Utils._processMethods`: `obj.getBuyCost = Utils.getBuyCost`. -/
def _processMethods (obj : DataObject) : DataObject :=
  { obj with getBuyCost := Utils.member "getBuyCost" }

/-- The function `Utils._processNotetag`, on the record `buyCost = obj._buyCost`
it updates: the four patterns are tried one after the other on the line. -/
def _processNotetag (buyCost : BuyCost) (notetag : Str) : BuyCost :=
  let buyCost :=
    match Regexp.GOLD_COST.exec notetag with
    | some m => { buyCost with goldCost := Number (m.idx 1) }
    | none => buyCost
  let buyCost :=
    match Regexp.ITEM_COST.exec notetag with
    | some m =>
      { buyCost with
        itemCost := buyCost.itemCost ++ [(toUpperCase (m.idx 1), Number (m.idx 2), Number (m.idx 3))] }
    | none => buyCost
  let buyCost :=
    match Regexp.VARIABLE_COST.exec notetag with
    | some m =>
      { buyCost with variableCost := buyCost.variableCost ++ [(Number (m.idx 1), Number (m.idx 2))] }
    | none => buyCost
  let buyCost :=
    match Regexp.SWITCH_NEED.exec notetag with
    | some m =>
      { buyCost with
        switchRequire :=
          buyCost.switchRequire ++ [(Number (m.idx 1), toLowerCase (m.idx 2) == "true".toList)] }
    | none => buyCost
  buyCost

/-- The body of the loop of `Utils.processNotetags` for one object: split the
note, reset the record, attach the method, then process every line. -/
def processObject (parameters : Parameters) (obj : DataObject) : DataObject :=
  let notedata := splitLines obj.note
  let obj := _processProperties parameters obj
  let obj := _processMethods obj
  { obj with _buyCost := obj._buyCost.map (fun buyCost => notedata.foldl _processNotetag buyCost) }

/-- The loop of `Utils.processNotetags` from some index on. Reading `note` of a
`null` entry throws: `.error` carries the table as the exception leaves it. -/
def processFrom (parameters : Parameters) : DataTable → Except DataTable DataTable
  | [] => .ok []
  | none :: rest => .error (none :: rest)
  | some obj :: rest =>
    match processFrom parameters rest with
    | .ok rest' => .ok (some (processObject parameters obj) :: rest')
    | .error rest' => .error (some (processObject parameters obj) :: rest')

/-- The loop `for (var i = 1; i < group.length; i++)` over a table. -/
def processGroup (parameters : Parameters) : DataTable → Except DataTable DataTable
  | [] => .ok []
  | first :: rest =>
    match processFrom parameters rest with
    | .ok rest' => .ok (first :: rest')
    | .error rest' => .error (first :: rest')

/-- The function `Utils.processNotetags`: `group` is `$dataStates`. -/
def processNotetags (parameters : Parameters) (db : Database) : Except Database Database :=
  match processGroup parameters db.dataStates with
  | .ok group => .ok { db with dataStates := group }
  | .error group => .error { db with dataStates := group }

/-- The function `Utils.getBuyCostGold`, with `this = obj`; `none` when reading
`goldCost` of an `undefined` record throws. -/
def getBuyCostGold (obj : DataObject) : Option Value :=
  obj._buyCost.map (fun buyCost => buyCost.goldCost)

/-- What an index expression `table[id]` evaluates to. -/
inductive Item where
  /-- No such element: `undefined`. -/
  | undefined
  /-- The element `null`. -/
  | null
  /-- A database object. -/
  | object (obj : DataObject)
  deriving DecidableEq, Repr

/-- The index expression `table[id]`. Ids are made by `Number` from a capture of
`\d+`, so they are naturals or `Infinity`, and a table has no element at
`Infinity`; for `undefined`, too, the answer is `undefined`, and that is the
answer given here for a text that is not evaluated. -/
def DataTable.at (table : DataTable) (id : Value) : Item :=
  match id with
  | .nat n =>
    match table.get? n with
    | none => .undefined
    | some none => .null
    | some (some obj) => .object obj
  | _ => .undefined

/-- The loop of `Utils.getBuyCostItems`; `item` is the local variable, which
keeps its value from one iteration to the next when no `case` applies. -/
def getBuyCostItems.loop (db : Database) :
    Item → List (Str × Value × Value) → List (Item × Value)
  | _, [] => []
  | item, (type, id, amount) :: rest =>
    let item :=
      if type = "WEAPON".toList then db.dataWeapons.at id
      else if type = "ARMOR".toList then db.dataArmors.at id
      else if type = "ITEM".toList then db.dataItems.at id
      else item
    (item, amount) :: getBuyCostItems.loop db item rest

/-- The function `Utils.getBuyCostItems`, with `this = obj`; `none` when
reading `itemCost` of an `undefined` record throws. -/
def getBuyCostItems (db : Database) (obj : DataObject) : Option (List (Item × Value)) :=
  obj._buyCost.map (fun buyCost => getBuyCostItems.loop db .undefined buyCost.itemCost)

/-- The record built for a note text under a configuration: the one
`processObject` leaves in `_buyCost`. -/
def buildCost (parameters : Parameters) (note : Str) : BuyCost :=
  (splitLines note).foldl _processNotetag
    { goldCost := parameters.defaultPrice, itemCost := [], variableCost := [], switchRequire := [] }

/-! ## Vocabulary of the statements -/

/-- The decimal digit characters. -/
def digitChars : List Char := "0123456789".toList

/-- The decimal numeral of a natural number, as it is written in a notetag. -/
def digits (n : Nat) : Str := Nat.toDigits 10 n

/-- The line `<buy cost gold: N>`. -/
def goldTag (n : Nat) : Str :=
  "<buy cost gold: ".toList ++ digits n ++ ">".toList

/-- The line `<buy cost KIND ID: QTY>`. -/
def itemTag (kind : Str) (id qty : Nat) : Str :=
  "<buy cost ".toList ++ kind ++ " ".toList ++ digits id ++ ": ".toList ++ digits qty ++ ">".toList

/-- The line `<buy cost variable ID: QTY>`. -/
def variableCostTag (id qty : Nat) : Str :=
  "<buy cost variable ".toList ++ digits id ++ ": ".toList ++ digits qty ++ ">".toList

/-- The line `<buy require variable ID: QTY>`. -/
def variableRequireTag (id qty : Nat) : Str :=
  "<buy require variable ".toList ++ digits id ++ ": ".toList ++ digits qty ++ ">".toList

/-- The line `<buy require switch ID: FLAG>`, the flag as it is spelled. -/
def switchTag (id : Nat) (flag : Str) : Str :=
  "<buy require switch ".toList ++ digits id ++ ": ".toList ++ flag ++ ">".toList

/-- Is `t` the word `w` up to the case of its letters? -/
def isCaseVariant : Str → Str → Bool
  | [], [] => true
  | a :: w, b :: t => (b == a.toLower || b == a.toUpper) && isCaseVariant w t
  | _, _ => false

/-- Does the pattern match somewhere in the line? -/
def Regex.matches (r : Regex) (line : Str) : Bool := (r.exec line).isSome

/-- The three kinds of item cost the resolver knows. -/
inductive ItemKind where
  | weapon
  | armor
  | item
  deriving DecidableEq, Repr

/-- The kind as it is written in a notetag. -/
def ItemKind.word : ItemKind → Str
  | .weapon => "weapon".toList
  | .armor => "armor".toList
  | .item => "item".toList

/-- The tag stored in an `itemCost` entry for the kind. -/
def ItemKind.tag : ItemKind → Str
  | .weapon => "WEAPON".toList
  | .armor => "ARMOR".toList
  | .item => "ITEM".toList

/-- The table a kind is resolved in. -/
def ItemKind.table (db : Database) : ItemKind → DataTable
  | .weapon => db.dataWeapons
  | .armor => db.dataArmors
  | .item => db.dataItems

/-- The gold cost a line sets, if the gold pattern matches it. -/
def goldEntry (line : Str) : Option Value :=
  (Regexp.GOLD_COST.exec line).map (fun m => Number (m.idx 1))

/-- The `itemCost` entry a line adds, if the item pattern matches it. -/
def itemEntry (line : Str) : Option (Str × Value × Value) :=
  (Regexp.ITEM_COST.exec line).map
    (fun m => (toUpperCase (m.idx 1), Number (m.idx 2), Number (m.idx 3)))

/-- The `variableCost` entry a line adds, if the variable-cost pattern matches it. -/
def variableEntry (line : Str) : Option (Value × Value) :=
  (Regexp.VARIABLE_COST.exec line).map (fun m => (Number (m.idx 1), Number (m.idx 2)))

/-- The `switchRequire` entry a line adds, if the switch pattern matches it. -/
def switchEntry (line : Str) : Option (Value × Bool) :=
  (Regexp.SWITCH_NEED.exec line).map
    (fun m => (Number (m.idx 1), toLowerCase (m.idx 2) == "true".toList))

/-- No atom of the pattern accepts the character. -/
def Regex.rejects (x : Char) : Regex → Bool
  | .eps => true
  | .atom a => !a.test x
  | .star a => !a.test x
  | .plus a => !a.test x
  | .group r => r.rejects x
  | .alt r₁ r₂ => r₁.rejects x && r₂.rejects x
  | .seq r₁ r₂ => r₁.rejects x && r₂.rejects x

/-- The pattern starts with one atom, and no atom after it accepts the
character: a match can hold the character at its first position only. -/
def Regex.opensWith (x : Char) : Regex → Bool
  | .atom _ => true
  | .seq r₁ r₂ => r₁.opensWith x && r₂.rejects x
  | _ => false

/-! ## Parts of the patterns -/

/-- The common end `(\d+):[ ]*(\d+)>` of three of the patterns. -/
def numTail : Regex :=
  .cat [.group (.plus .digit), .str ":", .star .blank, .group (.plus .digit), .str ">"]

/-- The end `:[ ]*(true|false)>` of the switch pattern. -/
def switchTail : Regex :=
  .cat [.str ":", .star .blank, .group (.alt (.str "true") (.str "false")), .str ">"]

/-! ## Sample data -/

/-- A database object as the engine loads it, with the given note. -/
def entryOf (note : String) : DataObject :=
  { note := note.toList, _buyCost := none, getBuyCost := none }

/-- A configuration with the default price 100. -/
def sampleParameters : Parameters :=
  { defaultPrice := .nat 100, requirementsText := some "Requirements".toList }

/-- A table with `null` at index 0 and one object per note after it. -/
def tableOf (notes : List String) : DataTable :=
  none :: notes.map (fun note => some (entryOf note))

/-- A small database: 2 states, 2 skills, 50 items, 4 weapons, 2 armors. -/
def sampleDatabase : Database :=
  { dataStates := tableOf ["<buy cost gold: 5>", "Poison"]
    dataSkills := tableOf ["<buy cost gold: 5>", "Fire"]
    dataItems := none :: (List.range 50).map (fun i => some (entryOf (String.mk (digits (i + 1)))))
    dataWeapons := tableOf ["Sword", "Axe", "Spear", "Bow"]
    dataArmors := tableOf ["Shield", "Helmet"] }

/-! ## What a match is -/

/-- The pattern matches exactly the text `w`, with the captures `cs` of its
groups: the matches the backtracking matcher chooses among. -/
def Regex.Derives : Regex → Str → List Str → Prop
  | .eps, w, cs => w = [] ∧ cs = []
  | .atom a, w, cs => (∃ c, w = [c] ∧ a.test c = true) ∧ cs = []
  | .star a, w, cs => (∀ c ∈ w, a.test c = true) ∧ cs = []
  | .plus a, w, cs => w ≠ [] ∧ (∀ c ∈ w, a.test c = true) ∧ cs = []
  | .group r, w, cs => ∃ cs₀, r.Derives w cs₀ ∧ cs = cs₀ ++ [w]
  | .alt r₁ r₂, w, cs => r₁.Derives w cs ∨ r₂.Derives w cs
  | .seq r₁ r₂, w, cs =>
    ∃ w₁ w₂ cs₁ cs₂, w = w₁ ++ w₂ ∧ cs = cs₁ ++ cs₂ ∧ r₁.Derives w₁ cs₁ ∧ r₂.Derives w₂ cs₂

/-- The pattern has no capturing group. -/
def Regex.groupFree : Regex → Bool
  | .eps => true
  | .atom _ => true
  | .star _ => true
  | .plus _ => true
  | .group _ => false
  | .alt r₁ r₂ => r₁.groupFree && r₂.groupFree
  | .seq r₁ r₂ => r₁.groupFree && r₂.groupFree

/-- A map on characters that no atom of the patterns can tell from the
identity, as lower-casing and upper-casing are under the `i` flag. -/
def CaseMap (f : Char → Char) : Prop :=
  (∀ (a : Atom) (c : Char), a.test (f c) = a.test c) ∧ (∀ c : Char, c.isDigit = true → f c = c)

/-! ## More vocabulary and sample data -/

/-- Does one of the four patterns that `_processNotetag` tries match the line? -/
def isDirective (line : Str) : Bool :=
  Regexp.GOLD_COST.matches line || Regexp.ITEM_COST.matches line ||
    Regexp.VARIABLE_COST.matches line || Regexp.SWITCH_NEED.matches line

/-- The names of the functions every object inherits from `Object.prototype`. -/
def objectPrototypeMethods : List String :=
  ["constructor", "hasOwnProperty", "isPrototypeOf", "propertyIsEnumerable", "toLocaleString",
    "toString", "valueOf", "__defineGetter__", "__defineSetter__", "__lookupGetter__",
    "__lookupSetter__"]

/-- What a read `obj[name]` finds to call. -/
inductive Method where
  /-- A member of `Utils` that the plugin assigned to the object. -/
  | utils (member : UtilsMember)
  /-- A function inherited from `Object.prototype`. -/
  | inherited (name : String)
  deriving DecidableEq, Repr

/-- A read `obj[name]` of a method of a database object: `getBuyCost` is the one
property the plugin assigns a function to, the functions of `Object.prototype`
are inherited, and the engine's data objects have no function of their own;
`none` is an answer that cannot be called. -/
def DataObject.method (obj : DataObject) (name : String) : Option Method :=
  if name = "getBuyCost" then obj.getBuyCost.map Method.utils
  else if name ∈ objectPrototypeMethods then some (.inherited name)
  else none

/-- A database object with the given `itemCost` in its record. -/
def entryWithItemCost (itemCost : List (Str × Value × Value)) : DataObject :=
  { note := []
    _buyCost := some { goldCost := .nat 0, itemCost := itemCost, variableCost := [],
                       switchRequire := [] }
    getBuyCost := none }

/-- The table a scan that ends normally leaves: index 0 as it was, every object
after it processed. -/
def scanned (parameters : Parameters) : DataTable → DataTable
  | [] => []
  | first :: rest => first :: rest.map (Option.map (processObject parameters))

/-- A variant of the sample database: the note of its second state is another. -/
def sampleDatabase₂ : Database :=
  { sampleDatabase with dataStates := tableOf ["<buy cost gold: 5>", "<buy cost item 7: 1>"] }

/-- A variant of the sample database: its one state already holds a function in
its property `getBuyCost`. -/
def sampleDatabase₃ : Database :=
  { sampleDatabase with
    dataStates := [none, some { note := "<buy cost gold: 5>".toList, _buyCost := none,
                                getBuyCost := some .getBuyCostGold }] }

/-! # Proofs

## Decimal numerals -/

theorem digitChar_mem (n : Nat) (h : n < 10) : Nat.digitChar n ∈ digitChars := by
  interval_cases n <;> decide

theorem digitChar_val (n : Nat) (h : n < 10) : (Nat.digitChar n).toNat - '0'.toNat = n := by
  interval_cases n <;> decide

theorem decimal_append_singleton (s : Str) (c : Char) :
    decimal (s ++ [c]) = 10 * decimal s + (c.toNat - '0'.toNat) := by
  simp [decimal, List.foldl_append]

theorem toDigitsCore_append (fuel : Nat) : ∀ (n : Nat) (ds : List Char),
    Nat.toDigitsCore 10 fuel n ds = Nat.toDigitsCore 10 fuel n [] ++ ds := by
  induction fuel with
  | zero => intro n ds; simp [Nat.toDigitsCore]
  | succ f ih =>
    intro n ds
    simp only [Nat.toDigitsCore]
    split
    · simp
    · rw [ih (n / 10) (_ :: ds), ih (n / 10) [_]]; simp

theorem toDigitsCore_spec (fuel : Nat) : ∀ n, n < fuel →
    decimal (Nat.toDigitsCore 10 fuel n []) = n ∧
    (∀ c ∈ Nat.toDigitsCore 10 fuel n [], c ∈ digitChars) ∧
    Nat.toDigitsCore 10 fuel n [] ≠ [] := by
  induction fuel with
  | zero => intro n h; omega
  | succ f ih =>
    intro n h
    simp only [Nat.toDigitsCore]
    split
    · rename_i h0
      refine ⟨?_, ?_, by simp⟩
      · have hv := digitChar_val (n % 10) (Nat.mod_lt _ (by decide))
        have hd := decimal_append_singleton [] (Nat.digitChar (n % 10))
        simp only [List.nil_append] at hd
        rw [hd, hv]
        simp only [decimal, List.foldl]
        omega
      · intro c hc; simp at hc; subst hc; exact digitChar_mem _ (Nat.mod_lt _ (by decide))
    · rename_i h0
      rw [toDigitsCore_append]
      obtain ⟨h1, h2, h3⟩ := ih (n / 10) (by omega)
      refine ⟨?_, ?_, by simp⟩
      · rw [decimal_append_singleton, h1, digitChar_val (n % 10) (Nat.mod_lt _ (by decide))]; omega
      · intro c hc
        simp at hc
        rcases hc with hc | hc
        · exact h2 c hc
        · subst hc; exact digitChar_mem _ (Nat.mod_lt _ (by decide))

theorem decimal_digits (n : Nat) : decimal (digits n) = n :=
  (toDigitsCore_spec (n + 1) n (Nat.lt_succ_self n)).1

theorem digits_mem (n : Nat) : ∀ c ∈ digits n, c ∈ digitChars :=
  (toDigitsCore_spec (n + 1) n (Nat.lt_succ_self n)).2.1

theorem digits_ne_nil (n : Nat) : digits n ≠ [] :=
  (toDigitsCore_spec (n + 1) n (Nat.lt_succ_self n)).2.2

/-- What the atoms of the patterns answer on a decimal digit. -/
theorem digitChars_facts : ∀ c ∈ digitChars,
    c.isDigit = true ∧ (c == ' ') = false ∧ Atom.test (.lit ' ') c = false ∧
    Atom.test (.lit ':') c = false ∧ Atom.test (.lit '>') c = false ∧
    Atom.test (.lit '<') c = false ∧ Atom.test .dot c = true := by
  decide

theorem digits_all_isDigit (n : Nat) : (digits n).all Char.isDigit = true := by
  rw [List.all_eq_true]
  intro c hc
  exact (digitChars_facts c (digits_mem n c hc)).1

theorem doubleLimit_eq : doubleLimit = 2 ^ 1024 := by
  norm_num [doubleLimit]

/-- A natural number up to `2^53` is a double. -/
theorem toDouble_of_le (n : Nat) (h : n ≤ 2 ^ 53) : toDouble n = .nat n := by
  have h53 : (2 : Nat) ^ 53 = 9007199254740992 := by norm_num
  rw [h53] at h
  rcases Nat.lt_or_eq_of_le h with hlt | heq
  · simp [toDouble, hlt]
  · subst heq; decide

/-- The number made from the numeral of `n` is the double nearest to `n`. -/
theorem Number_digits (n : Nat) : Number (digits n) = toDouble n := by
  simp [Number, digits_all_isDigit, decimal_digits]

theorem Number_digits_of_le (n : Nat) (h : n ≤ 2 ^ 53) : Number (digits n) = .nat n := by
  rw [Number_digits, toDouble_of_le n h]

/-- A numeral is a first digit followed by digits. -/
theorem digits_cons (n : Nat) :
    ∃ d ds, digits n = d :: ds ∧ d ∈ digitChars ∧ ∀ c ∈ ds, c ∈ digitChars := by
  obtain ⟨d, ds, h⟩ := List.exists_cons_of_ne_nil (digits_ne_nil n)
  have hall := digits_mem n
  rw [h] at hall
  exact ⟨d, ds, h, hall d (List.mem_cons_self _ _), fun c hc => hall c (List.mem_cons_of_mem _ hc)⟩

/-! ## The matcher -/

theorem starGo_of_not {α : Type} (p : Char → Bool) (k : Str → Option α) (c : Char) (rest : Str)
    (h : p c = false) : starGo p k (c :: rest) = k (c :: rest) := by
  simp [starGo, h]

/-- A greedy repetition that succeeds after a run succeeds before it too. -/
theorem starGo_append_of_some {α : Type} (p : Char → Bool) (k : Str → Option α) (rest : Str)
    (x : α) (h : starGo p k rest = some x) :
    ∀ w : Str, (∀ c ∈ w, p c = true) → starGo p k (w ++ rest) = some x
  | [], _ => h
  | c :: w, hw => by
    have hc : p c = true := hw c (List.mem_cons_self _ _)
    have ih := starGo_append_of_some p k rest x h w (fun d hd => hw d (List.mem_cons_of_mem _ hd))
    simp [starGo, hc, ih]

/-- A greedy repetition fails on a run at whose characters the continuation
fails, when it fails after the run. -/
theorem starGo_append_of_none {α : Type} (p : Char → Bool) (k : Str → Option α) (rest : Str)
    (h : starGo p k rest = none) :
    ∀ w : Str, (∀ c ∈ w, ∀ t, k (c :: t) = none) → starGo p k (w ++ rest) = none
  | [], _ => h
  | c :: w, hw => by
    have hc := hw c (List.mem_cons_self _ _) (w ++ rest)
    have ih := starGo_append_of_none p k rest h w (fun d hd => hw d (List.mem_cons_of_mem _ hd))
    by_cases hp : p c = true
    · simp [starGo, hp, ih, hc]
    · simp [starGo, hp, hc]

theorem consumed_append (a b : Str) : consumed (a ++ b) b = a := by
  simp [consumed]

theorem consumed_cons_append (c : Char) (a b : Str) : consumed (c :: (a ++ b)) b = c :: a :=
  consumed_append (c :: a) b

theorem consumed_of_eq {s a rest : Str} (h : s = a ++ rest) : consumed s rest = a := by
  subst h; exact consumed_append a rest

theorem consumed_append_right (s rest x : Str) :
    consumed (s ++ x) (rest ++ x) = consumed s rest := by
  simp only [consumed, List.length_append, Nat.add_sub_add_right]
  exact List.take_append_of_le_length (Nat.sub_le _ _)

/-- Greedy repetition does not see past a character its test refuses. -/
theorem starGo_append_rejects {α : Type} (p : Char → Bool) (x : Char) (tail : Str)
    (hx : p x = false) (k k' : Str → Option α)
    (hk : ∀ rest, k' (rest ++ x :: tail) = k rest) :
    ∀ s : Str, starGo p k' (s ++ x :: tail) = starGo p k s
  | [] => by
    have := hk []
    simp only [List.nil_append] at this
    simp [starGo, hx, this]
  | c :: s => by
    have ih := starGo_append_rejects p x tail hx k k' hk s
    have hc := hk (c :: s)
    simp only [List.cons_append] at hc
    simp [starGo, ih, hc]

/-- A pattern none of whose atoms accepts `x` matches a text followed by `x`
the way it matches the text alone. -/
theorem matchAt_append_rejects {α : Type} (x : Char) (tail : Str) :
    ∀ (r : Regex), r.rejects x = true →
    ∀ (s : Str) (caps : List Str) (k k' : Str → List Str → Option α),
      (∀ rest caps, k' (rest ++ x :: tail) caps = k rest caps) →
      r.matchAt (s ++ x :: tail) caps k' = r.matchAt s caps k := by
  intro r
  induction r with
  | eps => intro _ s caps k k' hk; simpa [Regex.matchAt] using hk s caps
  | atom a =>
    intro hr s caps k k' hk
    simp only [Regex.rejects, Bool.not_eq_true'] at hr
    cases s with
    | nil => simp [Regex.matchAt, hr]
    | cons c s => simp [Regex.matchAt, hk]
  | star a =>
    intro hr s caps k k' hk
    simp only [Regex.rejects, Bool.not_eq_true'] at hr
    simp only [Regex.matchAt]
    exact starGo_append_rejects a.test x tail hr _ _ (fun rest => hk rest caps) s
  | plus a =>
    intro hr s caps k k' hk
    simp only [Regex.rejects, Bool.not_eq_true'] at hr
    cases s with
    | nil => simp [Regex.matchAt, hr]
    | cons c s =>
      simp only [Regex.matchAt, List.cons_append]
      rw [starGo_append_rejects a.test x tail hr _ _ (fun rest => hk rest caps) s]
  | group r ih =>
    intro hr s caps k k' hk
    simp only [Regex.rejects] at hr
    simp only [Regex.matchAt]
    apply ih hr
    intro rest caps'
    rw [consumed_append_right, hk]
  | alt r₁ r₂ ih₁ ih₂ =>
    intro hr s caps k k' hk
    simp only [Regex.rejects, Bool.and_eq_true] at hr
    simp only [Regex.matchAt]
    rw [ih₁ hr.1 s caps k k' hk, ih₂ hr.2 s caps k k' hk]
  | seq r₁ r₂ ih₁ ih₂ =>
    intro hr s caps k k' hk
    simp only [Regex.rejects, Bool.and_eq_true] at hr
    simp only [Regex.matchAt]
    apply ih₁ hr.1
    intro rest caps'
    exact ih₂ hr.2 rest caps' k k' hk

/-- A pattern that can hold `x` at its first position only matches a non-empty
text followed by `x` the way it matches the text alone. -/
theorem matchAt_append_opensWith {α : Type} (x : Char) (tail : Str) :
    ∀ (r : Regex), r.opensWith x = true →
    ∀ (c : Char) (s : Str) (caps : List Str) (k k' : Str → List Str → Option α),
      (∀ rest caps, k' (rest ++ x :: tail) caps = k rest caps) →
      r.matchAt (c :: s ++ x :: tail) caps k' = r.matchAt (c :: s) caps k := by
  intro r
  induction r with
  | eps => intro hr; simp [Regex.opensWith] at hr
  | atom a => intro _ c s caps k k' hk; simp [Regex.matchAt, hk]
  | star a => intro hr; simp [Regex.opensWith] at hr
  | plus a => intro hr; simp [Regex.opensWith] at hr
  | group r _ => intro hr; simp [Regex.opensWith] at hr
  | alt r₁ r₂ _ _ => intro hr; simp [Regex.opensWith] at hr
  | seq r₁ r₂ ih₁ _ =>
    intro hr c s caps k k' hk
    simp only [Regex.opensWith, Bool.and_eq_true] at hr
    simp only [Regex.matchAt]
    apply ih₁ hr.1
    intro rest caps'
    exact matchAt_append_rejects x tail r₂ hr.2 rest caps' k k' hk

theorem matchHere_append_opensWith (x : Char) (tail : Str) (r : Regex)
    (hr : r.opensWith x = true) (c : Char) (s : Str) :
    r.matchHere (c :: s ++ x :: tail) = r.matchHere (c :: s) := by
  unfold Regex.matchHere
  apply matchAt_append_opensWith x tail r hr
  intro rest caps
  show some (consumed ((c :: s) ++ x :: tail) (rest ++ x :: tail) :: caps) = _
  rw [consumed_append_right]

/-- The leftmost match skips a text in which the pattern has no match, when what
follows starts with a character the pattern can hold at its first position
only. -/
theorem exec_append_of_none (x : Char) (tail : Str) (r : Regex) (hr : r.opensWith x = true) :
    ∀ pre : Str, r.exec pre = none → r.exec (pre ++ x :: tail) = r.exec (x :: tail)
  | [], _ => rfl
  | c :: pre, h => by
    have h' : r.matchHere (c :: pre) = none ∧ r.exec pre = none := by
      simp only [Regex.exec] at h
      cases hm : r.matchHere (c :: pre) with
      | none => rw [hm] at h; exact ⟨rfl, by simpa using h⟩
      | some m => rw [hm] at h; simp at h
    have ih := exec_append_of_none x tail r hr pre h'.2
    show (r.matchHere (c :: pre ++ x :: tail)).orElse (fun _ => r.exec (pre ++ x :: tail)) = _
    rw [matchHere_append_opensWith x tail r hr c pre, h'.1, ih]
    rfl

theorem exec_of_matchHere (r : Regex) (s : Str) (m : Match) (h : r.matchHere s = some m) :
    r.exec s = some m := by
  cases s with
  | nil => simpa [Regex.exec] using h
  | cons c s => simp [Regex.exec, h]

/-- No match in a text none of whose characters can start one. -/
theorem exec_eq_none (r : Regex) (h0 : r.matchHere [] = none) :
    ∀ s : Str, (∀ c ∈ s, ∀ rest, r.matchHere (c :: rest) = none) → r.exec s = none
  | [], _ => by simpa [Regex.exec] using h0
  | c :: s, h => by
    have ih := exec_eq_none r h0 s (fun d hd => h d (List.mem_cons_of_mem _ hd))
    simp [Regex.exec, h c (List.mem_cons_self _ _) s, ih]

/-! ## One line, then all lines -/

/-- What `_processNotetag` does to the record, field by field. -/
theorem _processNotetag_eq (buyCost : BuyCost) (line : Str) :
    _processNotetag buyCost line =
      { goldCost := (goldEntry line).getD buyCost.goldCost
        itemCost := buyCost.itemCost ++ (itemEntry line).toList
        variableCost := buyCost.variableCost ++ (variableEntry line).toList
        switchRequire := buyCost.switchRequire ++ (switchEntry line).toList } := by
  unfold _processNotetag goldEntry itemEntry variableEntry switchEntry
  cases Regexp.GOLD_COST.exec line <;> cases Regexp.ITEM_COST.exec line <;>
    cases Regexp.VARIABLE_COST.exec line <;> cases Regexp.SWITCH_NEED.exec line <;> simp

theorem getLast?_getD_cons {α : Type} (a d : α) (l : List α) :
    ((a :: l).getLast?).getD d = (l.getLast?).getD a := by
  cases l with
  | nil => rfl
  | cons b l =>
    rw [List.getLast?_cons_cons]
    cases h : (b :: l).getLast? with
    | none => simp [List.getLast?_eq_none_iff] at h
    | some v => rfl

/-- The record after all the lines of a note. -/
theorem foldl_processNotetag (lines : List Str) : ∀ buyCost : BuyCost,
    lines.foldl _processNotetag buyCost =
      { goldCost := ((lines.filterMap goldEntry).getLast?).getD buyCost.goldCost
        itemCost := buyCost.itemCost ++ lines.filterMap itemEntry
        variableCost := buyCost.variableCost ++ lines.filterMap variableEntry
        switchRequire := buyCost.switchRequire ++ lines.filterMap switchEntry } := by
  induction lines with
  | nil => intro buyCost; simp
  | cons l ls ih =>
    intro buyCost
    rw [List.foldl_cons, ih, _processNotetag_eq]
    have hg : ((ls.filterMap goldEntry).getLast?).getD ((goldEntry l).getD buyCost.goldCost) =
        (((l :: ls).filterMap goldEntry).getLast?).getD buyCost.goldCost := by
      cases hl : goldEntry l with
      | none => simp [List.filterMap_cons, hl]
      | some v => simp [List.filterMap_cons, hl, getLast?_getD_cons]
    have hi : ∀ {β : Type} (f : Str → Option β) (acc : List β),
        acc ++ (f l).toList ++ ls.filterMap f = acc ++ (l :: ls).filterMap f := by
      intro β f acc
      cases hl : f l <;> simp [List.filterMap_cons, hl]
    simp only [hg, hi]

theorem buildCost_eq (parameters : Parameters) (note : Str) :
    buildCost parameters note =
      { goldCost := (((splitLines note).filterMap goldEntry).getLast?).getD parameters.defaultPrice
        itemCost := (splitLines note).filterMap itemEntry
        variableCost := (splitLines note).filterMap variableEntry
        switchRequire := (splitLines note).filterMap switchEntry } := by
  unfold buildCost
  rw [foldl_processNotetag]
  simp

theorem processObject_buyCost (parameters : Parameters) (obj : DataObject) :
    (processObject parameters obj)._buyCost = some (buildCost parameters obj.note) := rfl

theorem processObject_note (parameters : Parameters) (obj : DataObject) :
    (processObject parameters obj).note = obj.note := rfl

/-- A partial map over a list sees only the elements it is defined on. -/
theorem filterMap_filter_isSome {α β : Type} (f : α → Option β) (l : List α) :
    l.filterMap f = (l.filter (fun a => (f a).isSome)).filterMap f := by
  induction l with
  | nil => rfl
  | cons a l ih =>
    cases h : f a with
    | none => simp [List.filterMap_cons, List.filter_cons, h, ih]
    | some b => simp [List.filterMap_cons, List.filter_cons, h, ← ih]

theorem filterMap_eq_nil_of_none {α β : Type} (f : α → Option β) (l : List α)
    (h : ∀ a ∈ l, f a = none) : l.filterMap f = [] := by
  induction l with
  | nil => rfl
  | cons a l ih =>
    simp [List.filterMap_cons, h a (List.mem_cons_self _ _),
      ih (fun b hb => h b (List.mem_cons_of_mem _ hb))]

/-! ## The patterns on well-formed directives -/

/-- The end `ID: QTY>` of a directive is matched whole, with the two numerals
captured. -/
theorem numTail_match {α : Type} (a p : Nat) (post : Str) (caps : List Str)
    (k : Str → List Str → Option α) (x : α)
    (hk : k post (caps ++ [digits a, digits p]) = some x) :
    numTail.matchAt (digits a ++ ':' :: ' ' :: (digits p ++ '>' :: post)) caps k = some x := by
  obtain ⟨d, ds, hd, hdm, hdsm⟩ := digits_cons a
  obtain ⟨e, es, he, hem, hesm⟩ := digits_cons p
  have fd := digitChars_facts d hdm
  have fe := digitChars_facts e hem
  rw [hd, he] at hk ⊢
  simp only [numTail, Regex.cat, Regex.str, Regex.matchAt, List.cons_append, Atom.test, fd.1,
    if_true]
  apply starGo_append_of_some _ _ _ _ _ _ (fun c hc => (digitChars_facts c (hdsm c hc)).1)
  simp [starGo, Regex.matchAt, Atom.test, fe.1, fe.2.1]
  apply starGo_append_of_some _ _ _ _ _ _ (fun c hc => (digitChars_facts c (hesm c hc)).1)
  simp only [starGo, Regex.matchAt, Atom.test]
  rw [consumed_cons_append, consumed_cons_append]
  simpa using hk

/-- The gold pattern at the start of `<buy cost gold: N>`, whatever follows. -/
theorem matchHere_gold (n : Nat) (post : Str) :
    Regexp.GOLD_COST.matchHere ("<buy cost gold: ".toList ++ digits n ++ '>' :: post) =
      some ["<buy cost gold: ".toList ++ digits n ++ ['>'], digits n] := by
  obtain ⟨d, ds, hds, hdm, hdsm⟩ := digits_cons n
  have hd := digitChars_facts d hdm
  rw [hds]
  simp [Regex.matchHere, Regexp.GOLD_COST, Regex.cat, Regex.str, Regex.matchAt, Atom.test, starGo, hd]
  apply starGo_append_of_some
  · simp [starGo, Atom.test]
    constructor <;> apply consumed_of_eq <;> simp
  · intro c hc
    exact (digitChars_facts c (hdsm c hc)).1

/-- A numeral followed by `>` where `:` is due does not match. -/
theorem numTail_numeral_close {α : Type} (p : Nat) (caps : List Str)
    (k : Str → List Str → Option α) :
    numTail.matchAt (digits p ++ ['>']) caps k = none := by
  obtain ⟨e, es, he, hem, hesm⟩ := digits_cons p
  have fe := digitChars_facts e hem
  rw [he]
  simp only [numTail, Regex.cat, Regex.str, Regex.matchAt, List.cons_append, fe.1, Atom.test,
    if_true]
  apply starGo_append_of_none
  · simp [starGo, Regex.matchAt, Atom.test]
  · intro c hc t
    have fc := digitChars_facts c (hesm c hc)
    have : (':' == c.toUpper) = false := by simpa [Atom.test] using fc.2.2.2.1
    simp [Regex.matchAt, Atom.test, this]

/-- The wildcard of the item pattern cannot run into the `ID: QTY>` part: after
any character of that part, what is left does not match the rest of the
pattern. -/
theorem starGo_dot_numerals {α : Type} (a p : Nat) (K : Str → Option α)
    (hK0 : K [] = none)
    (hKc : ∀ c t, Atom.test (.lit ' ') c = false → K (c :: t) = none)
    (hKsp : K (' ' :: (digits p ++ ['>'])) = none) :
    starGo Atom.dot.test K (digits a ++ ':' :: ' ' :: (digits p ++ ['>'])) = none := by
  apply starGo_append_of_none
  · have h1 : K (':' :: ' ' :: (digits p ++ ['>'])) = none := hKc _ _ (by decide)
    have h2 : starGo Atom.dot.test K (digits p ++ ['>']) = none := by
      apply starGo_append_of_none
      · have h3 : K ['>'] = none := hKc _ _ (by decide)
        simp [starGo, hK0, h3]
      · intro c hc t
        exact hKc c t (digitChars_facts c (digits_mem p c hc)).2.2.1
    simp [starGo, h1, h2, hKsp]
  · intro c hc t
    exact hKc c t (digitChars_facts c (digits_mem a c hc)).2.2.1

/-- The item pattern on the line `<buy cost KIND ID: QTY>`: the kind word, the id
and the quantity are captured. -/
theorem ITEM_COST_matchHere_itemTag (c₀ : Char) (w : Str)
    (hdot : ∀ c ∈ c₀ :: w, Atom.test .dot c = true) (a p : Nat) :
    Regexp.ITEM_COST.matchHere (itemTag (c₀ :: w) a p) =
      some [itemTag (c₀ :: w) a p, c₀ :: w, digits a, digits p] := by
  have hs : itemTag (c₀ :: w) a p =
      "<buy cost ".toList ++ (c₀ :: (w ++ ' ' :: (digits a ++ ':' :: ' ' :: (digits p ++ ['>'])))) := by
    simp [itemTag]
  have hc₀ := hdot c₀ (List.mem_cons_self _ _)
  generalize itemTag (c₀ :: w) a p = line at hs ⊢
  have e1 : Regexp.ITEM_COST.matchHere
        ("<buy cost ".toList ++ (c₀ :: (w ++ ' ' :: (digits a ++ ':' :: ' ' :: (digits p ++ ['>']))))) =
      if Atom.test .dot c₀ then
        starGo Atom.dot.test
          (fun rest => (Regex.seq (.str " ") numTail).matchAt rest
            ([] ++ [consumed (c₀ :: (w ++ ' ' :: (digits a ++ ':' :: ' ' :: (digits p ++ ['>'])))) rest])
            (fun rest' caps => some (consumed
              ("<buy cost ".toList ++
                (c₀ :: (w ++ ' ' :: (digits a ++ ':' :: ' ' :: (digits p ++ ['>']))))) rest' :: caps)))
          (w ++ ' ' :: (digits a ++ ':' :: ' ' :: (digits p ++ ['>'])))
      else none := rfl
  rw [hs, e1, hc₀, if_pos rfl]
  apply starGo_append_of_some _ _ _ _ _ _ (fun c hc => hdot c (List.mem_cons_of_mem _ hc))
  have hnone := starGo_dot_numerals a p
    (fun rest => (Regex.seq (.str " ") numTail).matchAt rest
      ([] ++ [consumed (c₀ :: (w ++ ' ' :: (digits a ++ ':' :: ' ' :: (digits p ++ ['>'])))) rest])
      (fun rest' caps => some (consumed
        ("<buy cost ".toList ++
          (c₀ :: (w ++ ' ' :: (digits a ++ ':' :: ' ' :: (digits p ++ ['>']))))) rest' :: caps)))
    rfl
    (fun c t hc => by
      have : (' ' == c.toUpper) = false := by simpa [Atom.test] using hc
      show (if Atom.test (.lit ' ') c then _ else none) = none
      simp [Atom.test, this])
    (numTail_numeral_close p _ _)
  have hdot_sp : Atom.test .dot ' ' = true := by decide
  rw [starGo, if_pos hdot_sp, hnone]
  show numTail.matchAt (digits a ++ ':' :: ' ' :: (digits p ++ ['>'])) _ _ = _
  apply numTail_match
  rw [consumed_cons_append]
  simp [consumed]

theorem itemEntry_itemTag (kind : ItemKind) (id qty : Nat) :
    itemEntry (itemTag kind.word id qty) =
      some (kind.tag, Number (digits id), Number (digits qty)) := by
  have h : Regexp.ITEM_COST.exec (itemTag kind.word id qty) =
      some [itemTag kind.word id qty, kind.word, digits id, digits qty] := by
    apply exec_of_matchHere
    cases kind
    · exact ITEM_COST_matchHere_itemTag 'w' "eapon".toList (by decide) id qty
    · exact ITEM_COST_matchHere_itemTag 'a' "rmor".toList (by decide) id qty
    · exact ITEM_COST_matchHere_itemTag 'i' "tem".toList (by decide) id qty
  have hk : toUpperCase kind.word = kind.tag := by cases kind <;> decide
  simp [itemEntry, h, Match.idx, hk]

/-- The gold pattern on a line that holds `<buy cost gold: N>` after a text in
which the pattern has no match. -/
theorem GOLD_COST_exec_goldTag (pre post : Str) (n : Nat)
    (hpre : Regexp.GOLD_COST.exec pre = none) :
    Regexp.GOLD_COST.exec (pre ++ goldTag n ++ post) = some [goldTag n, digits n] := by
  have hs : pre ++ goldTag n ++ post =
      pre ++ '<' :: ("buy cost gold: ".toList ++ digits n ++ '>' :: post) := by
    simp [goldTag]
  have hm := matchHere_gold n post
  have ht : "<buy cost gold: ".toList ++ digits n ++ ['>'] = goldTag n := by simp [goldTag]
  rw [ht] at hm
  rw [hs, exec_append_of_none '<' _ Regexp.GOLD_COST (by decide) pre hpre]
  exact exec_of_matchHere _ _ _ hm

theorem goldEntry_goldTag (pre post : Str) (n : Nat)
    (hpre : Regexp.GOLD_COST.exec pre = none) :
    goldEntry (pre ++ goldTag n ++ post) = some (Number (digits n)) := by
  unfold goldEntry
  rw [GOLD_COST_exec_goldTag pre post n hpre]
  simp [Match.idx]

theorem consumed_nil (s : Str) : consumed s [] = s := by
  simp [consumed]

theorem isCaseVariant_nil {t : Str} (h : isCaseVariant [] t = true) : t = [] := by
  cases t with
  | nil => rfl
  | cons b t => simp [isCaseVariant] at h

theorem isCaseVariant_cons {a : Char} {w t : Str} (h : isCaseVariant (a :: w) t = true) :
    ∃ b t', t = b :: t' ∧ (b = a.toLower ∨ b = a.toUpper) ∧ isCaseVariant w t' = true := by
  cases t with
  | nil => simp [isCaseVariant] at h
  | cons b t =>
    simp only [isCaseVariant, Bool.and_eq_true, Bool.or_eq_true, beq_iff_eq] at h
    exact ⟨b, t, rfl, h.1, h.2⟩

/-- The end `: FLAG>` of a switch directive, for a flag that is `true` or `false`
in any case. -/
theorem switchTail_match {α : Type} (t : Str)
    (ht : isCaseVariant "true".toList t = true ∨ isCaseVariant "false".toList t = true)
    (caps : List Str) (k : Str → List Str → Option α) (x : α)
    (hk : k [] (caps ++ [t]) = some x) :
    switchTail.matchAt (':' :: ' ' :: (t ++ ['>'])) caps k = some x := by
  rcases ht with ht | ht
  · obtain ⟨c1, t1, rfl, h1, ht⟩ := isCaseVariant_cons ht
    obtain ⟨c2, t2, rfl, h2, ht⟩ := isCaseVariant_cons ht
    obtain ⟨c3, t3, rfl, h3, ht⟩ := isCaseVariant_cons ht
    obtain ⟨c4, t4, rfl, h4, ht⟩ := isCaseVariant_cons ht
    obtain rfl := isCaseVariant_nil ht
    rcases h1 with rfl | rfl <;> rcases h2 with rfl | rfl <;> rcases h3 with rfl | rfl <;>
      rcases h4 with rfl | rfl <;>
      simp [switchTail, Regex.cat, Regex.str, Regex.matchAt, starGo, Atom.test, consumed] <;>
      simpa using hk
  · obtain ⟨c1, t1, rfl, h1, ht⟩ := isCaseVariant_cons ht
    obtain ⟨c2, t2, rfl, h2, ht⟩ := isCaseVariant_cons ht
    obtain ⟨c3, t3, rfl, h3, ht⟩ := isCaseVariant_cons ht
    obtain ⟨c4, t4, rfl, h4, ht⟩ := isCaseVariant_cons ht
    obtain ⟨c5, t5, rfl, h5, ht⟩ := isCaseVariant_cons ht
    obtain rfl := isCaseVariant_nil ht
    rcases h1 with rfl | rfl <;> rcases h2 with rfl | rfl <;> rcases h3 with rfl | rfl <;>
      rcases h4 with rfl | rfl <;> rcases h5 with rfl | rfl <;>
      simp [switchTail, Regex.cat, Regex.str, Regex.matchAt, starGo, Atom.test, consumed] <;>
      simpa using hk

theorem toLowerCase_of_variant_true {t : Str} (ht : isCaseVariant "true".toList t = true) :
    (toLowerCase t == "true".toList) = true := by
  obtain ⟨c1, t1, rfl, h1, ht⟩ := isCaseVariant_cons ht
  obtain ⟨c2, t2, rfl, h2, ht⟩ := isCaseVariant_cons ht
  obtain ⟨c3, t3, rfl, h3, ht⟩ := isCaseVariant_cons ht
  obtain ⟨c4, t4, rfl, h4, ht⟩ := isCaseVariant_cons ht
  obtain rfl := isCaseVariant_nil ht
  rcases h1 with rfl | rfl <;> rcases h2 with rfl | rfl <;> rcases h3 with rfl | rfl <;>
    rcases h4 with rfl | rfl <;> decide

theorem toLowerCase_of_variant_false {t : Str} (ht : isCaseVariant "false".toList t = true) :
    (toLowerCase t == "true".toList) = false := by
  obtain ⟨c1, t1, rfl, h1, ht⟩ := isCaseVariant_cons ht
  obtain ⟨c2, t2, rfl, h2, ht⟩ := isCaseVariant_cons ht
  obtain ⟨c3, t3, rfl, h3, ht⟩ := isCaseVariant_cons ht
  obtain ⟨c4, t4, rfl, h4, ht⟩ := isCaseVariant_cons ht
  obtain ⟨c5, t5, rfl, h5, ht⟩ := isCaseVariant_cons ht
  obtain rfl := isCaseVariant_nil ht
  rcases h1 with rfl | rfl <;> rcases h2 with rfl | rfl <;> rcases h3 with rfl | rfl <;>
    rcases h4 with rfl | rfl <;> rcases h5 with rfl | rfl <;> decide

/-- The switch pattern on the line `<buy require switch ID: FLAG>`. -/
theorem SWITCH_NEED_matchHere_switchTag (id : Nat) (t : Str)
    (ht : isCaseVariant "true".toList t = true ∨ isCaseVariant "false".toList t = true) :
    Regexp.SWITCH_NEED.matchHere (switchTag id t) = some [switchTag id t, digits id, t] := by
  obtain ⟨d, ds, hd, hdm, hdsm⟩ := digits_cons id
  have fd := digitChars_facts d hdm
  have hs : switchTag id t =
      "<buy require switch ".toList ++ (d :: (ds ++ ':' :: ' ' :: (t ++ ['>']))) := by
    simp [switchTag, hd]
  generalize switchTag id t = line at hs ⊢
  have e1 : Regexp.SWITCH_NEED.matchHere
        ("<buy require switch ".toList ++ (d :: (ds ++ ':' :: ' ' :: (t ++ ['>'])))) =
      if Atom.test .digit d then
        starGo Atom.digit.test
          (fun rest => switchTail.matchAt rest
            ([] ++ [consumed (d :: (ds ++ ':' :: ' ' :: (t ++ ['>']))) rest])
            (fun rest' caps => some (consumed
              ("<buy require switch ".toList ++ (d :: (ds ++ ':' :: ' ' :: (t ++ ['>'])))) rest'
                :: caps)))
          (ds ++ ':' :: ' ' :: (t ++ ['>']))
      else none := rfl
  have hdig : Atom.test .digit d = true := fd.1
  rw [hs, e1, hdig, if_pos rfl, hd]
  apply starGo_append_of_some _ _ _ _ _ _ (fun c hc => (digitChars_facts c (hdsm c hc)).1)
  rw [starGo_of_not _ _ _ _ (by decide)]
  apply switchTail_match t ht
  rw [consumed_cons_append, consumed_nil]
  rfl

theorem switchEntry_switchTag (id : Nat) (t : Str)
    (ht : isCaseVariant "true".toList t = true ∨ isCaseVariant "false".toList t = true) :
    switchEntry (switchTag id t) =
      some (Number (digits id), toLowerCase t == "true".toList) := by
  unfold switchEntry
  rw [exec_of_matchHere _ _ _ (SWITCH_NEED_matchHere_switchTag id t ht)]
  simp [Match.idx]

/-! ## The patterns on a variable requirement -/

theorem GOLD_COST_matchHere_of_not_lt (c : Char) (rest : Str)
    (h : Atom.test (.lit '<') c = false) : Regexp.GOLD_COST.matchHere (c :: rest) = none := by
  show (if Atom.test (.lit '<') c then _ else none) = none
  rw [h]; rfl

theorem ITEM_COST_matchHere_of_not_lt (c : Char) (rest : Str)
    (h : Atom.test (.lit '<') c = false) : Regexp.ITEM_COST.matchHere (c :: rest) = none := by
  show (if Atom.test (.lit '<') c then _ else none) = none
  rw [h]; rfl

theorem VARIABLE_COST_matchHere_of_not_lt (c : Char) (rest : Str)
    (h : Atom.test (.lit '<') c = false) : Regexp.VARIABLE_COST.matchHere (c :: rest) = none := by
  show (if Atom.test (.lit '<') c then _ else none) = none
  rw [h]; rfl

theorem SWITCH_NEED_matchHere_of_not_lt (c : Char) (rest : Str)
    (h : Atom.test (.lit '<') c = false) : Regexp.SWITCH_NEED.matchHere (c :: rest) = none := by
  show (if Atom.test (.lit '<') c then _ else none) = none
  rw [h]; rfl

/-- After its first character, a variable-requirement line has no `<`. -/
theorem variableRequireTag_tail (id qty : Nat) :
    ∃ tail, variableRequireTag id qty = '<' :: ("buy require v".toList ++ tail) ∧
      ∀ c ∈ "buy require v".toList ++ tail, Atom.test (.lit '<') c = false := by
  refine ⟨"ariable ".toList ++ digits id ++ ": ".toList ++ digits qty ++ ">".toList,
    by simp [variableRequireTag], ?_⟩
  intro c hc
  have h1 : ∀ c ∈ "buy require variable ".toList, Atom.test (.lit '<') c = false := by decide
  have h2 : ∀ c ∈ ": ".toList, Atom.test (.lit '<') c = false := by decide
  have h3 : ∀ c ∈ ">".toList, Atom.test (.lit '<') c = false := by decide
  have hd : ∀ n, ∀ c ∈ digits n, Atom.test (.lit '<') c = false :=
    fun n c hc => (digitChars_facts c (digits_mem n c hc)).2.2.2.2.2.1
  have hc' : c ∈ "buy require variable ".toList ++ digits id ++ ": ".toList ++ digits qty ++
      ">".toList := by simpa using hc
  simp only [List.mem_append] at hc'
  rcases hc' with (((hc' | hc') | hc') | hc') | hc'
  · exact h1 c hc'
  · exact hd id c hc'
  · exact h2 c hc'
  · exact hd qty c hc'
  · exact h3 c hc'

theorem exec_cons_of_none (r : Regex) (c : Char) (s : Str)
    (h0 : r.matchHere (c :: s) = none) (h1 : r.exec s = none) : r.exec (c :: s) = none := by
  show (r.matchHere (c :: s)).orElse (fun _ => r.exec s) = none
  rw [h0, h1]; rfl

/-- None of the four patterns that `_processNotetag` tries matches a
variable-requirement line. -/
theorem exec_variableRequireTag (id qty : Nat) :
    Regexp.GOLD_COST.exec (variableRequireTag id qty) = none ∧
    Regexp.ITEM_COST.exec (variableRequireTag id qty) = none ∧
    Regexp.VARIABLE_COST.exec (variableRequireTag id qty) = none ∧
    Regexp.SWITCH_NEED.exec (variableRequireTag id qty) = none := by
  obtain ⟨tail, hs, hc⟩ := variableRequireTag_tail id qty
  rw [hs]
  refine ⟨?_, ?_, ?_, ?_⟩
  · exact exec_cons_of_none _ _ _ rfl (exec_eq_none Regexp.GOLD_COST rfl _
      (fun c hm rest => GOLD_COST_matchHere_of_not_lt c rest (hc c hm)))
  · exact exec_cons_of_none _ _ _ rfl (exec_eq_none Regexp.ITEM_COST rfl _
      (fun c hm rest => ITEM_COST_matchHere_of_not_lt c rest (hc c hm)))
  · exact exec_cons_of_none _ _ _ rfl (exec_eq_none Regexp.VARIABLE_COST rfl _
      (fun c hm rest => VARIABLE_COST_matchHere_of_not_lt c rest (hc c hm)))
  · exact exec_cons_of_none _ _ _ rfl (exec_eq_none Regexp.SWITCH_NEED rfl _
      (fun c hm rest => SWITCH_NEED_matchHere_of_not_lt c rest (hc c hm)))

/-! ## The resolver and the database scan -/

theorem ItemKind.tag_cases (kind : ItemKind) (db : Database) (id : Value) (item : Item) :
    (if kind.tag = "WEAPON".toList then db.dataWeapons.at id
      else if kind.tag = "ARMOR".toList then db.dataArmors.at id
      else if kind.tag = "ITEM".toList then db.dataItems.at id
      else item) = (kind.table db).at id := by
  cases kind <;> simp [ItemKind.tag, ItemKind.table]

/-- On entries of the three known kinds every pair holds the element of the
kind's table at the id. -/
theorem getBuyCostItems_loop_kinds (db : Database) (ds : List (ItemKind × Nat × Nat))
    (f : Nat → Value) :
    ∀ item : Item,
      getBuyCostItems.loop db item (ds.map (fun d => (d.1.tag, f d.2.1, f d.2.2))) =
        ds.map (fun d => ((d.1.table db).at (f d.2.1), f d.2.2)) := by
  induction ds with
  | nil => intro item; rfl
  | cons d ds ih =>
    intro item
    simp only [List.map_cons, getBuyCostItems.loop]
    rw [ItemKind.tag_cases, ih]

theorem getBuyCostItems_loop_length (db : Database) (l : List (Str × Value × Value)) :
    ∀ item : Item, (getBuyCostItems.loop db item l).length = l.length := by
  induction l with
  | nil => intro item; rfl
  | cons e l ih =>
    intro item
    obtain ⟨type, id, amount⟩ := e
    simp only [getBuyCostItems.loop, List.length_cons, ih]

/-- The pair made for an entry of a known kind, wherever the entry stands. -/
theorem getBuyCostItems_loop_get (db : Database) (kind : ItemKind) (id amount : Value)
    (post : List (Str × Value × Value)) :
    ∀ (pre : List (Str × Value × Value)) (item : Item),
      (getBuyCostItems.loop db item (pre ++ (kind.tag, id, amount) :: post)).get? pre.length =
        some ((kind.table db).at id, amount) := by
  intro pre
  induction pre with
  | nil =>
    intro item
    simp only [List.nil_append, getBuyCostItems.loop, List.length_nil, List.get?_cons_zero]
    rw [ItemKind.tag_cases]
  | cons e pre ih =>
    intro item
    obtain ⟨type, id', amount'⟩ := e
    simp only [List.cons_append, getBuyCostItems.loop, List.length_cons, List.get?_cons_succ]
    exact ih _

theorem DataTable.at_of_length_le (table : DataTable) (n : Nat) (h : table.length ≤ n) :
    table.at (.nat n) = .undefined := by
  have hn : table.get? n = none := List.get?_eq_none.mpr h
  show (match table.get? n with
    | none => Item.undefined
    | some none => Item.null
    | some (some obj) => Item.object obj) = Item.undefined
  rw [hn]

/-- The scan of a table without `null` entries ends normally and processes
every object. -/
theorem processFrom_ok (parameters : Parameters) :
    ∀ table : DataTable, (∀ e ∈ table, e ≠ none) →
      processFrom parameters table = .ok (table.map (Option.map (processObject parameters)))
  | [], _ => rfl
  | none :: rest, h => absurd rfl (h none (List.mem_cons_self _ _))
  | some obj :: rest, h => by
    have ih := processFrom_ok parameters rest (fun e he => h e (List.mem_cons_of_mem _ he))
    simp [processFrom, ih]

theorem processGroup_ok (parameters : Parameters) (first : Option DataObject) (rest : DataTable)
    (h : ∀ e ∈ rest, e ≠ none) :
    processGroup parameters (first :: rest) =
      .ok (first :: rest.map (Option.map (processObject parameters))) := by
  simp [processGroup, processFrom_ok parameters rest h]

/-! ## Characters and case -/

theorem toNat_ofNat_of_lt (n : Nat) (h : n < 0xd800) : (Char.ofNat n).toNat = n := by
  have hv : n.isValidChar := Or.inl h
  simp only [Char.ofNat, hv, dif_pos, Char.ofNatAux, Char.toNat]
  rfl

theorem char_eq_of_toNat {c d : Char} (h : c.toNat = d.toNat) : c = d :=
  Char.ext (UInt32.ext h)

theorem isDigit_iff (c : Char) : c.isDigit = true ↔ 48 ≤ c.toNat ∧ c.toNat ≤ 57 := by
  simp only [Char.isDigit, Bool.and_eq_true, decide_eq_true_eq, Char.toNat, ge_iff_le]
  exact Iff.rfl

theorem toLower_toNat (c : Char) :
    c.toLower.toNat = if 65 ≤ c.toNat ∧ c.toNat ≤ 90 then c.toNat + 32 else c.toNat := by
  unfold Char.toLower
  simp only [ge_iff_le]
  split
  · rename_i h; exact toNat_ofNat_of_lt _ (by omega)
  · rfl

theorem toUpper_toNat (c : Char) :
    c.toUpper.toNat = if 97 ≤ c.toNat ∧ c.toNat ≤ 122 then c.toNat - 32 else c.toNat := by
  unfold Char.toUpper
  simp only [ge_iff_le]
  split
  · rename_i h; exact toNat_ofNat_of_lt _ (by omega)
  · rfl

theorem toUpper_toLower (c : Char) : c.toLower.toUpper = c.toUpper := by
  apply char_eq_of_toNat
  rw [toUpper_toNat, toUpper_toNat, toLower_toNat]
  split_ifs <;> omega

theorem toUpper_toUpper (c : Char) : c.toUpper.toUpper = c.toUpper := by
  apply char_eq_of_toNat
  rw [toUpper_toNat, toUpper_toNat]
  split_ifs <;> omega

theorem toLower_toLower (c : Char) : c.toLower.toLower = c.toLower := by
  apply char_eq_of_toNat
  rw [toLower_toNat, toLower_toNat]
  split_ifs <;> omega

theorem toLower_toUpper (c : Char) : c.toUpper.toLower = c.toLower := by
  apply char_eq_of_toNat
  rw [toLower_toNat, toLower_toNat, toUpper_toNat]
  split_ifs <;> omega

theorem beq_iff_toNat (c d : Char) : (c == d) = (c.toNat == d.toNat) := by
  by_cases h : c = d
  · subst h; simp
  · have : c.toNat ≠ d.toNat := fun e => h (char_eq_of_toNat e)
    simp [h, this]

/-- A test that looks at the code of a character only, and answers the same on
a letter in both cases. -/
theorem test_of_toNat (a : Atom) (c d : Char) (hu : d.toUpper = c.toUpper)
    (hn : d.toNat = c.toNat ∨ (65 ≤ c.toNat ∧ c.toNat ≤ 90 ∧ 97 ≤ d.toNat ∧ d.toNat ≤ 122) ∨
      (97 ≤ c.toNat ∧ c.toNat ≤ 122 ∧ 65 ≤ d.toNat ∧ d.toNat ≤ 90)) :
    a.test d = a.test c := by
  cases a with
  | lit p => simp only [Atom.test, hu]
  | digit =>
    simp only [Atom.test]
    rw [Bool.eq_iff_iff, isDigit_iff, isDigit_iff]
    omega
  | blank =>
    simp only [Atom.test, beq_iff_toNat]
    have h32 : ' '.toNat = 32 := rfl
    rw [h32, Bool.eq_iff_iff]
    simp only [beq_iff_eq]
    omega
  | dot =>
    simp only [Atom.test, isLineTerminator]
    rw [Bool.eq_iff_iff]
    simp only [Bool.not_eq_true', Bool.or_eq_false_iff, beq_eq_false_iff_ne, ne_eq]
    omega

theorem caseMap_toLower : CaseMap Char.toLower := by
  refine ⟨fun a c => test_of_toNat a c c.toLower (toUpper_toLower c) ?_, fun c hc => ?_⟩
  · rw [toLower_toNat]; split_ifs <;> omega
  · apply char_eq_of_toNat
    rw [isDigit_iff] at hc
    rw [toLower_toNat]; split_ifs <;> omega

theorem caseMap_toUpper : CaseMap Char.toUpper := by
  refine ⟨fun a c => test_of_toNat a c c.toUpper (toUpper_toUpper c) ?_, fun c hc => ?_⟩
  · rw [toUpper_toNat]; split_ifs <;> omega
  · apply char_eq_of_toNat
    rw [isDigit_iff] at hc
    rw [toUpper_toNat]; split_ifs <;> omega

/-! ## Matching a line in another case -/

theorem orElse_map {α β : Type} (φ : α → β) (a b : Option α) :
    ((a.orElse fun _ => b).map φ) = (a.map φ).orElse fun _ => b.map φ := by
  cases a <;> rfl

theorem consumed_map (f : Char → Char) (s rest : Str) :
    consumed (s.map f) (rest.map f) = (consumed s rest).map f := by
  simp [consumed, List.map_take]

theorem starGo_map {α β : Type} (f : Char → Char) (p : Char → Bool) (hp : ∀ c, p (f c) = p c)
    (φ : α → β) (k : Str → Option α) (k' : Str → Option β)
    (hk : ∀ rest, k' (rest.map f) = (k rest).map φ) :
    ∀ s : Str, starGo p k' (s.map f) = (starGo p k s).map φ
  | [] => hk []
  | c :: s => by
    have ih := starGo_map f p hp φ k k' hk s
    have hc := hk (c :: s)
    simp only [List.map_cons] at hc ⊢
    simp only [starGo, hp, ih, hc]
    split
    · rw [orElse_map]
    · rfl

/-- The matcher on a line put through a case map does what it does on the line,
with the captures put through the map. -/
theorem matchAt_map {α β : Type} (f : Char → Char) (hf : CaseMap f) (φ : α → β) :
    ∀ (r : Regex) (s : Str) (caps : List Str) (k : Str → List Str → Option α)
      (k' : Str → List Str → Option β),
      (∀ rest caps, k' (rest.map f) (caps.map (List.map f)) = (k rest caps).map φ) →
      r.matchAt (s.map f) (caps.map (List.map f)) k' = (r.matchAt s caps k).map φ := by
  intro r
  induction r with
  | eps => intro s caps k k' hk; exact hk s caps
  | atom a =>
    intro s caps k k' hk
    cases s with
    | nil => rfl
    | cons c s =>
      simp only [List.map_cons, Regex.matchAt, hf.1]
      split
      · exact hk s caps
      · rfl
  | star a =>
    intro s caps k k' hk
    simp only [Regex.matchAt]
    exact starGo_map f a.test (hf.1 a) φ _ _ (fun rest => hk rest caps) s
  | plus a =>
    intro s caps k k' hk
    cases s with
    | nil => rfl
    | cons c s =>
      simp only [List.map_cons, Regex.matchAt, hf.1]
      split
      · exact starGo_map f a.test (hf.1 a) φ _ _ (fun rest => hk rest caps) s
      · rfl
  | group r ih =>
    intro s caps k k' hk
    simp only [Regex.matchAt]
    apply ih
    intro rest caps'
    rw [consumed_map, ← hk]
    simp
  | alt r₁ r₂ ih₁ ih₂ =>
    intro s caps k k' hk
    simp only [Regex.matchAt]
    rw [ih₁ s caps k k' hk, ih₂ s caps k k' hk, orElse_map]
  | seq r₁ r₂ ih₁ ih₂ =>
    intro s caps k k' hk
    simp only [Regex.matchAt]
    apply ih₁
    intro rest caps'
    exact ih₂ rest caps' k k' hk

theorem matchHere_map (f : Char → Char) (hf : CaseMap f) (r : Regex) (s : Str) :
    r.matchHere (s.map f) = (r.matchHere s).map (List.map (List.map f)) := by
  unfold Regex.matchHere
  have h := matchAt_map f hf (List.map (List.map f)) r s []
    (fun rest caps => some (consumed s rest :: caps))
    (fun rest caps => some (consumed (s.map f) rest :: caps))
    (fun rest caps => by simp [consumed_map])
  simpa using h

theorem exec_map (f : Char → Char) (hf : CaseMap f) (r : Regex) :
    ∀ s : Str, r.exec (s.map f) = (r.exec s).map (List.map (List.map f))
  | [] => matchHere_map f hf r []
  | c :: s => by
    have ih := exec_map f hf r s
    have hm := matchHere_map f hf r (c :: s)
    simp only [List.map_cons] at hm ⊢
    simp only [Regex.exec, hm, ih]
    rw [orElse_map]

/-! ## What the matcher finds is a match -/

theorem starGo_sound {α : Type} (p : Char → Bool) (k : Str → Option α) (x : α) :
    ∀ s : Str, starGo p k s = some x →
      ∃ w rest, s = w ++ rest ∧ (∀ c ∈ w, p c = true) ∧ k rest = some x
  | [], h => ⟨[], [], rfl, by simp, h⟩
  | c :: s, h => by
    simp only [starGo] at h
    split at h
    · rename_i hc
      cases hs : starGo p k s with
      | some y =>
        rw [hs] at h
        have hy : y = x := by simpa using h
        subst hy
        obtain ⟨w, rest, hw, hall, hk⟩ := starGo_sound p k y s hs
        refine ⟨c :: w, rest, by rw [hw]; rfl, ?_, hk⟩
        intro d hd
        rcases List.mem_cons.mp hd with rfl | hd
        · exact hc
        · exact hall d hd
      | none =>
        rw [hs] at h
        exact ⟨[], c :: s, rfl, by simp, by simpa using h⟩
    · exact ⟨[], c :: s, rfl, by simp, h⟩

/-- When the matcher succeeds, it has split the input into a text the pattern
matches and a rest on which the continuation succeeded. -/
theorem matchAt_sound {α : Type} (x : α) :
    ∀ (r : Regex) (s : Str) (caps : List Str) (k : Str → List Str → Option α),
      r.matchAt s caps k = some x →
      ∃ w rest cs, s = w ++ rest ∧ r.Derives w cs ∧ k rest (caps ++ cs) = some x := by
  intro r
  induction r with
  | eps =>
    intro s caps k h
    exact ⟨[], s, [], rfl, ⟨rfl, rfl⟩, by simpa [Regex.matchAt] using h⟩
  | atom a =>
    intro s caps k h
    cases s with
    | nil => simp [Regex.matchAt] at h
    | cons c s =>
      simp only [Regex.matchAt] at h
      split at h
      · rename_i hc
        exact ⟨[c], s, [], rfl, ⟨⟨c, rfl, hc⟩, rfl⟩, by simpa using h⟩
      · simp at h
  | star a =>
    intro s caps k h
    simp only [Regex.matchAt] at h
    obtain ⟨w, rest, hw, hall, hk⟩ := starGo_sound a.test _ x s h
    exact ⟨w, rest, [], hw, ⟨hall, rfl⟩, by simpa using hk⟩
  | plus a =>
    intro s caps k h
    cases s with
    | nil => simp [Regex.matchAt] at h
    | cons c s =>
      simp only [Regex.matchAt] at h
      split at h
      · rename_i hc
        obtain ⟨w, rest, hw, hall, hk⟩ := starGo_sound a.test _ x s h
        refine ⟨c :: w, rest, [], by rw [hw]; rfl, ⟨by simp, ?_, rfl⟩, by simpa using hk⟩
        intro d hd
        rcases List.mem_cons.mp hd with rfl | hd
        · exact hc
        · exact hall d hd
      · simp at h
  | group r ih =>
    intro s caps k h
    simp only [Regex.matchAt] at h
    obtain ⟨w, rest, cs, hw, hd, hk⟩ := ih s caps _ h
    refine ⟨w, rest, cs ++ [w], hw, ⟨cs, hd, rfl⟩, ?_⟩
    rw [hw, consumed_append] at hk
    simpa using hk
  | alt r₁ r₂ ih₁ ih₂ =>
    intro s caps k h
    simp only [Regex.matchAt] at h
    cases h₁ : r₁.matchAt s caps k with
    | some y =>
      rw [h₁] at h
      have hy : y = x := by simpa using h
      subst hy
      obtain ⟨w, rest, cs, hw, hd, hk⟩ := ih₁ s caps k h₁
      exact ⟨w, rest, cs, hw, Or.inl hd, hk⟩
    | none =>
      rw [h₁] at h
      obtain ⟨w, rest, cs, hw, hd, hk⟩ := ih₂ s caps k (by simpa using h)
      exact ⟨w, rest, cs, hw, Or.inr hd, hk⟩
  | seq r₁ r₂ ih₁ ih₂ =>
    intro s caps k h
    simp only [Regex.matchAt] at h
    obtain ⟨w₁, mid, cs₁, hw₁, hd₁, hk₁⟩ := ih₁ s caps _ h
    obtain ⟨w₂, rest, cs₂, hw₂, hd₂, hk₂⟩ := ih₂ mid (caps ++ cs₁) k hk₁
    refine ⟨w₁ ++ w₂, rest, cs₁ ++ cs₂, by rw [hw₁, hw₂, List.append_assoc],
      ⟨w₁, w₂, cs₁, cs₂, rfl, rfl, hd₁, hd₂⟩, ?_⟩
    rw [← List.append_assoc]
    exact hk₂

theorem matchHere_sound (r : Regex) (s : Str) (m : Match) (h : r.matchHere s = some m) :
    ∃ w cs, m = w :: cs ∧ r.Derives w cs := by
  obtain ⟨w, rest, cs, hw, hd, hk⟩ := matchAt_sound m r s [] _ h
  refine ⟨w, cs, ?_, hd⟩
  rw [hw, consumed_append] at hk
  simpa using hk.symm

/-- A match array holds a text the pattern matches and its captures. -/
theorem exec_sound (r : Regex) : ∀ (s : Str) (m : Match), r.exec s = some m →
    ∃ w cs, m = w :: cs ∧ r.Derives w cs
  | [], m, h => matchHere_sound r [] m h
  | c :: s, m, h => by
    simp only [Regex.exec] at h
    cases hm : r.matchHere (c :: s) with
    | some y =>
      rw [hm] at h
      have hy : y = m := by simpa using h
      subst hy
      exact matchHere_sound r _ _ hm
    | none =>
      rw [hm] at h
      exact exec_sound r s m (by simpa using h)

theorem derives_groupFree : ∀ (r : Regex) (w : Str) (cs : List Str),
    r.groupFree = true → r.Derives w cs → cs = [] := by
  intro r
  induction r with
  | eps => intro w cs _ h; exact h.2
  | atom a => intro w cs _ h; exact h.2
  | star a => intro w cs _ h; exact h.2
  | plus a => intro w cs _ h; exact h.2.2
  | group r _ => intro w cs hg; simp [Regex.groupFree] at hg
  | alt r₁ r₂ ih₁ ih₂ =>
    intro w cs hg h
    simp only [Regex.groupFree, Bool.and_eq_true] at hg
    rcases h with h | h
    · exact ih₁ w cs hg.1 h
    · exact ih₂ w cs hg.2 h
  | seq r₁ r₂ ih₁ ih₂ =>
    intro w cs hg h
    simp only [Regex.groupFree, Bool.and_eq_true] at hg
    obtain ⟨w₁, w₂, cs₁, cs₂, _, hcs, h₁, h₂⟩ := h
    rw [hcs, ih₁ w₁ cs₁ hg.1 h₁, ih₂ w₂ cs₂ hg.2 h₂]
    rfl

/-! ## The captures of the four patterns -/

theorem derives_digitGroup (w : Str) (cs : List Str)
    (h : (Regex.group (.plus .digit)).Derives w cs) : cs = [w] ∧ w.all Char.isDigit = true := by
  obtain ⟨cs₀, ⟨_, hall, rfl⟩, rfl⟩ := h
  exact ⟨rfl, List.all_eq_true.mpr hall⟩

theorem derives_numTail (w : Str) (cs : List Str) (h : numTail.Derives w cs) :
    ∃ d₁ d₂, cs = [d₁, d₂] ∧ d₁.all Char.isDigit = true ∧ d₂.all Char.isDigit = true := by
  obtain ⟨w₁, _, cs₁, _, _, rfl, h₁, w₂, _, cs₂, _, _, rfl, h₂, w₃, _, cs₃, _, _, rfl, h₃,
    w₄, _, cs₄, _, _, rfl, h₄, w₅, _, cs₅, _, _, rfl, h₅, _, rfl⟩ := h
  obtain ⟨rfl, hd₁⟩ := derives_digitGroup _ _ h₁
  obtain rfl := derives_groupFree _ _ _ (by decide) h₂
  obtain rfl := h₃.2
  obtain ⟨rfl, hd₄⟩ := derives_digitGroup _ _ h₄
  obtain rfl := derives_groupFree _ _ _ (by decide) h₅
  exact ⟨w₁, w₄, rfl, hd₁, hd₄⟩

theorem derives_GOLD_COST (w : Str) (cs : List Str) (h : Regexp.GOLD_COST.Derives w cs) :
    ∃ d, cs = [d] ∧ d.all Char.isDigit = true := by
  obtain ⟨w₁, _, cs₁, _, _, rfl, h₁, w₂, _, cs₂, _, _, rfl, h₂, w₃, _, cs₃, _, _, rfl, h₃,
    w₄, _, cs₄, _, _, rfl, h₄, _, rfl⟩ := h
  obtain rfl := derives_groupFree _ _ _ (by decide) h₁
  obtain rfl := h₂.2
  obtain ⟨rfl, hd₃⟩ := derives_digitGroup _ _ h₃
  obtain rfl := derives_groupFree _ _ _ (by decide) h₄
  exact ⟨w₃, rfl, hd₃⟩

theorem derives_ITEM_COST (w : Str) (cs : List Str) (h : Regexp.ITEM_COST.Derives w cs) :
    ∃ kind d₁ d₂, cs = [kind, d₁, d₂] ∧ d₁.all Char.isDigit = true ∧
      d₂.all Char.isDigit = true := by
  obtain ⟨w₁, _, cs₁, _, _, rfl, h₁, w₂, _, cs₂, _, _, rfl, h₂, w₃, _, cs₃, _, _, rfl, h₃, h₄⟩ := h
  obtain rfl := derives_groupFree _ _ _ (by decide) h₁
  obtain ⟨cs₀, ⟨_, _, rfl⟩, rfl⟩ := h₂
  obtain rfl := derives_groupFree _ _ _ (by decide) h₃
  obtain ⟨d₁, d₂, rfl, hd₁, hd₂⟩ := derives_numTail _ _ h₄
  exact ⟨w₂, d₁, d₂, rfl, hd₁, hd₂⟩

theorem derives_VARIABLE_COST (w : Str) (cs : List Str) (h : Regexp.VARIABLE_COST.Derives w cs) :
    ∃ d₁ d₂, cs = [d₁, d₂] ∧ d₁.all Char.isDigit = true ∧ d₂.all Char.isDigit = true := by
  obtain ⟨w₁, _, cs₁, _, _, rfl, h₁, h₂⟩ := h
  obtain rfl := derives_groupFree _ _ _ (by decide) h₁
  obtain ⟨d₁, d₂, rfl, hd₁, hd₂⟩ := derives_numTail _ _ h₂
  exact ⟨d₁, d₂, rfl, hd₁, hd₂⟩

theorem derives_SWITCH_NEED (w : Str) (cs : List Str) (h : Regexp.SWITCH_NEED.Derives w cs) :
    ∃ d flag, cs = [d, flag] ∧ d.all Char.isDigit = true := by
  obtain ⟨w₁, _, cs₁, _, _, rfl, h₁, w₂, _, cs₂, _, _, rfl, h₂, w₃, _, cs₃, _, _, rfl, h₃,
    w₄, _, cs₄, _, _, rfl, h₄, w₅, _, cs₅, _, _, rfl, h₅, w₆, _, cs₆, _, _, rfl, h₆, _, rfl⟩ := h
  obtain rfl := derives_groupFree _ _ _ (by decide) h₁
  obtain ⟨rfl, hd₂⟩ := derives_digitGroup _ _ h₂
  obtain rfl := derives_groupFree _ _ _ (by decide) h₃
  obtain rfl := h₄.2
  obtain ⟨cs₀, h₀, rfl⟩ := h₅
  obtain rfl := derives_groupFree _ _ _ (by decide) h₀
  obtain rfl := derives_groupFree _ _ _ (by decide) h₆
  exact ⟨w₂, w₅, rfl, hd₂⟩

/-! ## One line in another case -/

theorem map_of_digits (f : Char → Char) (hf : CaseMap f) (d : Str)
    (hd : d.all Char.isDigit = true) : d.map f = d := by
  rw [List.all_eq_true] at hd
  calc d.map f = d.map id := List.map_congr_left (fun c hc => hf.2 c (hd c hc))
    _ = d := List.map_id d

theorem goldEntry_map (f : Char → Char) (hf : CaseMap f) (line : Str) :
    goldEntry (line.map f) = goldEntry line := by
  unfold goldEntry
  rw [exec_map f hf]
  cases h : Regexp.GOLD_COST.exec line with
  | none => rfl
  | some m =>
    obtain ⟨w, cs, rfl, hd⟩ := exec_sound _ _ _ h
    obtain ⟨d, rfl, hdig⟩ := derives_GOLD_COST _ _ hd
    simp [Match.idx, map_of_digits f hf d hdig]

theorem itemEntry_map (f : Char → Char) (hf : CaseMap f)
    (hu : ∀ c, (f c).toUpper = c.toUpper) (line : Str) :
    itemEntry (line.map f) = itemEntry line := by
  unfold itemEntry
  rw [exec_map f hf]
  cases h : Regexp.ITEM_COST.exec line with
  | none => rfl
  | some m =>
    obtain ⟨w, cs, rfl, hd⟩ := exec_sound _ _ _ h
    obtain ⟨kind, d₁, d₂, rfl, h₁, h₂⟩ := derives_ITEM_COST _ _ hd
    have hk : toUpperCase (kind.map f) = toUpperCase kind := by
      simp [toUpperCase, List.map_map, Function.comp_def, hu]
    simp [Match.idx, map_of_digits f hf d₁ h₁, map_of_digits f hf d₂ h₂, hk]

theorem variableEntry_map (f : Char → Char) (hf : CaseMap f) (line : Str) :
    variableEntry (line.map f) = variableEntry line := by
  unfold variableEntry
  rw [exec_map f hf]
  cases h : Regexp.VARIABLE_COST.exec line with
  | none => rfl
  | some m =>
    obtain ⟨w, cs, rfl, hd⟩ := exec_sound _ _ _ h
    obtain ⟨d₁, d₂, rfl, h₁, h₂⟩ := derives_VARIABLE_COST _ _ hd
    simp [Match.idx, map_of_digits f hf d₁ h₁, map_of_digits f hf d₂ h₂]

theorem switchEntry_map (f : Char → Char) (hf : CaseMap f)
    (hl : ∀ c, (f c).toLower = c.toLower) (line : Str) :
    switchEntry (line.map f) = switchEntry line := by
  unfold switchEntry
  rw [exec_map f hf]
  cases h : Regexp.SWITCH_NEED.exec line with
  | none => rfl
  | some m =>
    obtain ⟨w, cs, rfl, hd⟩ := exec_sound _ _ _ h
    obtain ⟨d, flag, rfl, h₁⟩ := derives_SWITCH_NEED _ _ hd
    have hk : toLowerCase (flag.map f) = toLowerCase flag := by
      simp [toLowerCase, List.map_map, Function.comp_def, hl]
    simp [Match.idx, map_of_digits f hf d h₁, hk]

theorem _processNotetag_map (f : Char → Char) (hf : CaseMap f)
    (hu : ∀ c, (f c).toUpper = c.toUpper) (hl : ∀ c, (f c).toLower = c.toLower)
    (buyCost : BuyCost) (line : Str) :
    _processNotetag buyCost (line.map f) = _processNotetag buyCost line := by
  rw [_processNotetag_eq, _processNotetag_eq, goldEntry_map f hf, itemEntry_map f hf hu,
    variableEntry_map f hf, switchEntry_map f hf hl]

/-! ## Lines that are ignored, lines that are variable costs -/

theorem _processNotetag_of_not_directive (buyCost : BuyCost) (line : Str)
    (h : isDirective line = false) : _processNotetag buyCost line = buyCost := by
  simp only [isDirective, Regex.matches, Bool.or_eq_false_iff] at h
  obtain ⟨⟨⟨h₁, h₂⟩, h₃⟩, h₄⟩ := h
  have hn : ∀ o : Option Match, o.isSome = false → o = none := by
    intro o ho; cases o with
    | none => rfl
    | some m => simp at ho
  replace h₁ := hn _ h₁
  replace h₂ := hn _ h₂
  replace h₃ := hn _ h₃
  replace h₄ := hn _ h₄
  rw [_processNotetag_eq]
  simp [goldEntry, itemEntry, variableEntry, switchEntry, h₁, h₂, h₃, h₄]

theorem foldl_processNotetag_filter (lines : List Str) : ∀ buyCost : BuyCost,
    lines.foldl _processNotetag buyCost = (lines.filter isDirective).foldl _processNotetag buyCost := by
  induction lines with
  | nil => intro buyCost; rfl
  | cons l ls ih =>
    intro buyCost
    cases h : isDirective l with
    | true => simp only [List.foldl_cons, List.filter_cons, h, if_true, ih]
    | false =>
      rw [List.foldl_cons, _processNotetag_of_not_directive buyCost l h, ih]
      simp [List.filter_cons, h]

theorem variableEntry_variableCostTag (id qty : Nat) :
    variableEntry (variableCostTag id qty) = some (Number (digits id), Number (digits qty)) := by
  have hs : variableCostTag id qty =
      "<buy cost variable ".toList ++ (digits id ++ ':' :: ' ' :: (digits qty ++ '>' :: [])) := by
    simp [variableCostTag]
  have hm : Regexp.VARIABLE_COST.matchHere (variableCostTag id qty) =
      some [variableCostTag id qty, digits id, digits qty] := by
    generalize variableCostTag id qty = line at hs ⊢
    have e1 : Regexp.VARIABLE_COST.matchHere
          ("<buy cost variable ".toList ++ (digits id ++ ':' :: ' ' :: (digits qty ++ '>' :: []))) =
        numTail.matchAt (digits id ++ ':' :: ' ' :: (digits qty ++ '>' :: [])) []
          (fun rest caps => some (consumed
            ("<buy cost variable ".toList ++ (digits id ++ ':' :: ' ' :: (digits qty ++ '>' :: [])))
            rest :: caps)) := rfl
    rw [hs, e1]
    apply numTail_match
    rw [consumed_nil]
    rfl
  unfold variableEntry
  rw [exec_of_matchHere _ _ _ hm]
  simp [Match.idx]

/-- The pair a line adds to `variableCost` is made of the numbers of two runs of
digits. -/
theorem variableEntry_digits (line : Str) (e : Value × Value) (h : variableEntry line = some e) :
    ∃ d₁ d₂ : Str, d₁.all Char.isDigit = true ∧ d₂.all Char.isDigit = true ∧
      e = (Number d₁, Number d₂) := by
  unfold variableEntry at h
  cases hm : Regexp.VARIABLE_COST.exec line with
  | none => rw [hm] at h; simp at h
  | some m =>
    rw [hm] at h
    obtain ⟨w, cs, rfl, hd⟩ := exec_sound _ _ _ hm
    obtain ⟨d₁, d₂, rfl, h₁, h₂⟩ := derives_VARIABLE_COST _ _ hd
    refine ⟨d₁, d₂, h₁, h₂, ?_⟩
    simp only [Option.map_some', Option.some.injEq] at h
    rw [← h]
    simp [Match.idx]

/-! ## Splitting a note made of two notes -/

theorem splitLines_newline_newline (c d : Char) (r : Str) (hc : isNewline c = true)
    (hd : isNewline d = true) : splitLines (c :: d :: r) = splitLines (d :: r) := by
  rw [splitLines]
  simp only [hc, hd, if_true]

theorem splitLines_newline_other (c d : Char) (r : Str) (hc : isNewline c = true)
    (hd : ¬ isNewline d = true) : splitLines (c :: d :: r) = [] :: splitLines (d :: r) := by
  rw [splitLines]
  simp [hc, hd]

/-- After a line break the first piece is empty, and the pieces after it are
those of the rest, up to an empty piece. -/
theorem splitLines_newline {β : Type} (F : Str → Option β) (hF : F [] = none) :
    ∀ (rest : Str) (c : Char), isNewline c = true →
      ∃ X, splitLines (c :: rest) = [] :: X ∧
        X.filterMap F = (splitLines rest).filterMap F
  | [], c, hc => ⟨[[]], by simp [splitLines, hc], rfl⟩
  | d :: r, c, hc => by
    by_cases hd : isNewline d = true
    · obtain ⟨X, hX, hFX⟩ := splitLines_newline F hF r d hd
      refine ⟨X, by rw [splitLines_newline_newline c d r hc hd]; exact hX, ?_⟩
      rw [hX, List.filterMap_cons, hF]
    · exact ⟨splitLines (d :: r), splitLines_newline_other c d r hc hd, rfl⟩

theorem splitLines_cons_of_not_newline (c : Char) (rest h : Str) (t : List Str)
    (hc : isNewline c = false) (hs : splitLines rest = h :: t) :
    splitLines (c :: rest) = (c :: h) :: t := by
  simp only [splitLines, hc, hs]
  rfl

theorem splitLines_append_newline {β : Type} (F : Str → Option β) (hF : F [] = none) (b : Str) :
    ∀ a : Str, ∃ h t X, splitLines a = h :: t ∧ splitLines (a ++ '\n' :: b) = h :: X ∧
      X.filterMap F = t.filterMap F ++ (splitLines b).filterMap F
  | [] => by
    obtain ⟨X, hX, hFX⟩ := splitLines_newline F hF b '\n' (by decide)
    exact ⟨[], [], X, rfl, hX, by simpa using hFX⟩
  | c :: a => by
    obtain ⟨h, t, X, ha, hab, hFX⟩ := splitLines_append_newline F hF b a
    by_cases hc : isNewline c = true
    · obtain ⟨T, hT, hFT⟩ := splitLines_newline F hF a c hc
      obtain ⟨Y, hY, hFY⟩ := splitLines_newline F hF (a ++ '\n' :: b) c hc
      refine ⟨[], T, Y, hT, hY, ?_⟩
      rw [hFY, hab, hFT, ha, List.filterMap_cons, List.filterMap_cons, hFX]
      cases F h <;> simp
    · have hc' : isNewline c = false := by simpa using hc
      exact ⟨c :: h, t, X, splitLines_cons_of_not_newline c a h t hc' ha,
        splitLines_cons_of_not_newline c (a ++ '\n' :: b) h X hc' hab, hFX⟩

/-- The entries of the note `a`, a line break, `b` are the entries of `a`
followed by the entries of `b`. -/
theorem filterMap_splitLines_append {β : Type} (F : Str → Option β) (hF : F [] = none)
    (a b : Str) :
    (splitLines (a ++ '\n' :: b)).filterMap F =
      (splitLines a).filterMap F ++ (splitLines b).filterMap F := by
  obtain ⟨h, t, X, ha, hab, hFX⟩ := splitLines_append_newline F hF b a
  rw [hab, ha, List.filterMap_cons, List.filterMap_cons, hFX]
  cases F h <;> simp

theorem getLast?_getD_append {α : Type} (d : α) (l₁ l₂ : List α) (h : l₂ ≠ []) :
    ((l₁ ++ l₂).getLast?).getD d = (l₂.getLast?).getD d := by
  obtain ⟨x, xs, rfl⟩ := List.exists_cons_of_ne_nil h
  rw [List.getLast?_append]
  cases hl : (x :: xs).getLast? with
  | none => simp [List.getLast?_eq_none_iff] at hl
  | some v => rfl

/-! ## The scan, once and again -/

theorem processObject_idem (parameters : Parameters) (obj : DataObject) :
    processObject parameters (processObject parameters obj) = processObject parameters obj := rfl

theorem processFrom_inv (parameters : Parameters) : ∀ (table table' : DataTable),
    processFrom parameters table = .ok table' →
      table' = table.map (Option.map (processObject parameters)) ∧ ∀ e ∈ table, e ≠ none
  | [], table', h => by
    simp only [processFrom, Except.ok.injEq] at h
    subst h
    exact ⟨rfl, by simp⟩
  | none :: rest, table', h => by simp [processFrom] at h
  | some obj :: rest, table', h => by
    simp only [processFrom] at h
    cases hr : processFrom parameters rest with
    | error e => rw [hr] at h; simp at h
    | ok r =>
      rw [hr] at h
      simp only [Except.ok.injEq] at h
      subst h
      obtain ⟨h₁, h₂⟩ := processFrom_inv parameters rest r hr
      refine ⟨by rw [h₁]; rfl, ?_⟩
      intro e he
      rcases List.mem_cons.mp he with rfl | he
      · simp
      · exact h₂ e he

theorem processNotetags_inv (parameters : Parameters) (db db' : Database)
    (h : processNotetags parameters db = .ok db') :
    db' = { db with dataStates := scanned parameters db.dataStates } ∧
      ∀ e ∈ db.dataStates.tail, e ≠ none := by
  unfold processNotetags at h
  cases hs : db.dataStates with
  | nil =>
    rw [hs] at h
    simp only [processGroup, Except.ok.injEq] at h
    subst h
    exact ⟨rfl, by simp⟩
  | cons first rest =>
    rw [hs] at h
    simp only [processGroup] at h
    cases hr : processFrom parameters rest with
    | error e => rw [hr] at h; simp at h
    | ok r =>
      rw [hr] at h
      simp only [Except.ok.injEq] at h
      subst h
      obtain ⟨h₁, h₂⟩ := processFrom_inv parameters rest r hr
      exact ⟨by rw [h₁]; rfl, h₂⟩

theorem processNotetags_ok (parameters : Parameters) (db : Database)
    (hwf : ∀ e ∈ db.dataStates.tail, e ≠ none) :
    processNotetags parameters db =
      .ok { db with dataStates := scanned parameters db.dataStates } := by
  unfold processNotetags
  cases hs : db.dataStates with
  | nil => rfl
  | cons first rest =>
    rw [hs] at hwf
    rw [processGroup_ok parameters first rest hwf]
    rfl

theorem scanned_get?_zero (parameters : Parameters) (table : DataTable) :
    (scanned parameters table).get? 0 = table.get? 0 := by
  cases table <;> rfl

theorem scanned_get?_succ (parameters : Parameters) (table : DataTable) (j : Nat) :
    (scanned parameters table).get? (j + 1) =
      (table.get? (j + 1)).map (Option.map (processObject parameters)) := by
  cases table with
  | nil => rfl
  | cons first rest =>
    show (rest.map (Option.map (processObject parameters))).get? j = _
    rw [List.get?_eq_getElem?, List.getElem?_map, ← List.get?_eq_getElem?]
    rfl

theorem scanned_tail_ne_none (parameters : Parameters) (table : DataTable)
    (h : ∀ e ∈ table.tail, e ≠ none) : ∀ e ∈ (scanned parameters table).tail, e ≠ none := by
  cases table with
  | nil => simp [scanned]
  | cons first rest =>
    intro e he
    simp only [scanned, List.tail_cons, List.mem_map] at he
    obtain ⟨e₀, he₀, rfl⟩ := he
    cases e₀ with
    | none => exact absurd rfl (h none he₀)
    | some obj => simp

theorem scanned_idem (parameters : Parameters) (table : DataTable) :
    scanned parameters (scanned parameters table) = scanned parameters table := by
  cases table with
  | nil => rfl
  | cons first rest =>
    simp only [scanned, List.map_map, List.cons.injEq, true_and]
    apply List.map_congr_left
    intro e _
    cases e <;> rfl

theorem buildCost_congr (p₁ p₂ : Parameters) (h : p₁.defaultPrice = p₂.defaultPrice)
    (note : Str) : buildCost p₁ note = buildCost p₂ note := by
  unfold buildCost
  rw [h]

/-! ## The claims -/

/-- C1. A note none of whose lines matches a pattern that `_processNotetag`
tries (the empty note is one) gets the record `_processProperties` sets up:
`goldCost` is the configured default price and the three lists are empty. -/
theorem buyCost_default_of_no_notetag (parameters : Parameters) (obj : DataObject)
    (h : ∀ line ∈ splitLines obj.note,
      Regexp.GOLD_COST.exec line = none ∧ Regexp.ITEM_COST.exec line = none ∧
      Regexp.VARIABLE_COST.exec line = none ∧ Regexp.SWITCH_NEED.exec line = none) :
    (processObject parameters obj)._buyCost =
      some { goldCost := parameters.defaultPrice, itemCost := [], variableCost := [],
             switchRequire := [] } := by
  rw [processObject_buyCost, buildCost_eq]
  rw [filterMap_eq_nil_of_none goldEntry _ (fun l hl => by simp [goldEntry, (h l hl).1]),
    filterMap_eq_nil_of_none itemEntry _ (fun l hl => by simp [itemEntry, (h l hl).2.1]),
    filterMap_eq_nil_of_none variableEntry _ (fun l hl => by simp [variableEntry, (h l hl).2.2.1]),
    filterMap_eq_nil_of_none switchEntry _ (fun l hl => by simp [switchEntry, (h l hl).2.2.2])]
  rfl

/-- C1, on the empty note and on a note of two lines that match no pattern. -/
theorem buyCost_default_of_no_notetag_witness :
    (processObject sampleParameters (entryOf ""))._buyCost =
      some { goldCost := .nat 100, itemCost := [], variableCost := [], switchRequire := [] } ∧
    (processObject sampleParameters (entryOf "Teaches Fire.\n<retain on death>"))._buyCost =
      some { goldCost := .nat 100, itemCost := [], variableCost := [], switchRequire := [] } :=
  ⟨buyCost_default_of_no_notetag sampleParameters (entryOf "") (by decide),
   buyCost_default_of_no_notetag sampleParameters (entryOf "Teaches Fire.\n<retain on death>")
     (by decide)⟩

/-- C2, the claim fails. A quantity is stored as a double: the note
`<buy cost weapon 3: 9007199254740993>`, `<buy cost item 7: 1>` gives weapon 3
with the quantity 9007199254740992. And the item pattern matches the line
`<buy cost variable 1: 1>`, which is no item-kind line: between the weapon line
and the item line it makes a third pair, which repeats the weapon. -/
theorem getBuyCostItems_rounds_and_adds_pair :
    getBuyCostItems sampleDatabase (processObject sampleParameters
        (entryOf "<buy cost weapon 3: 9007199254740993>\n<buy cost item 7: 1>")) =
      some [(.object (entryOf "Spear"), .nat 9007199254740992), (.object (entryOf "7"), .nat 1)] ∧
    getBuyCostItems sampleDatabase (processObject sampleParameters
        (entryOf "<buy cost weapon 3: 2>\n<buy cost variable 1: 1>\n<buy cost item 7: 1>")) =
      some [(.object (entryOf "Spear"), .nat 2), (.object (entryOf "Spear"), .nat 1),
        (.object (entryOf "7"), .nat 1)] := by
  decide

/-- C2 as amended. When the lines of a note that the item pattern matches are, in
order, the directives `<buy cost KIND ID: QTY>` of a list of (kind, id,
quantity) with kinds among weapon, armor and item, `getBuyCostItems` on the
processed entry returns, in the same order, one pair per directive: the element
of the kind's table at the number of the id, and the number of the quantity,
where the number of a numeral is the double nearest to it. When every id and
quantity is at most `2^53` the pairs hold the ids' elements and the quantities
themselves. The case of the claim is the list `[(weapon, A, P), (item, B, Q)]`. -/
theorem getBuyCostItems_of_item_lines (parameters : Parameters) (db : Database)
    (obj : DataObject) (ds : List (ItemKind × Nat × Nat))
    (h : (splitLines obj.note).filter Regexp.ITEM_COST.matches =
      ds.map (fun d => itemTag d.1.word d.2.1 d.2.2)) :
    getBuyCostItems db (processObject parameters obj) =
      some (ds.map (fun d =>
        ((d.1.table db).at (Number (digits d.2.1)), Number (digits d.2.2)))) ∧
    ((∀ d ∈ ds, d.2.1 ≤ 2 ^ 53 ∧ d.2.2 ≤ 2 ^ 53) →
      getBuyCostItems db (processObject parameters obj) =
        some (ds.map (fun d => ((d.1.table db).at (.nat d.2.1), Value.nat d.2.2)))) := by
  have hf : (splitLines obj.note).filterMap itemEntry =
      ds.map (fun d => (d.1.tag, Number (digits d.2.1), Number (digits d.2.2))) := by
    rw [filterMap_filter_isSome]
    have hm : (fun a => (itemEntry a).isSome) = Regexp.ITEM_COST.matches := by
      funext a; simp [itemEntry, Regex.matches]
    rw [hm, h]
    clear h
    induction ds with
    | nil => rfl
    | cons d ds ih => simp [List.filterMap_cons, itemEntry_itemTag, ih]
  have hmain : getBuyCostItems db (processObject parameters obj) =
      some (ds.map (fun d =>
        ((d.1.table db).at (Number (digits d.2.1)), Number (digits d.2.2)))) := by
    unfold getBuyCostItems
    rw [processObject_buyCost, buildCost_eq]
    simp only [Option.map_some', hf]
    rw [getBuyCostItems_loop_kinds db ds (fun n => Number (digits n))]
  refine ⟨hmain, fun hle => ?_⟩
  rw [hmain]
  congr 1
  apply List.map_congr_left
  intro d hd
  rw [Number_digits_of_le _ (hle d hd).1, Number_digits_of_le _ (hle d hd).2]

/-- C2 as amended, on `<buy cost weapon 3: 2>` then `<buy cost item 7: 1>` among
other lines: weapon 3 with quantity 2, then item 7 with quantity 1. -/
theorem getBuyCostItems_of_item_lines_witness :
    (splitLines (entryOf "Fire\n<buy cost weapon 3: 2>\n<buy cost gold: 5>\n<buy cost item 7: 1>").note).filter
        Regexp.ITEM_COST.matches =
      [itemTag ItemKind.weapon.word 3 2, itemTag ItemKind.item.word 7 1] ∧
    (∀ d ∈ [(ItemKind.weapon, 3, 2), (ItemKind.item, 7, 1)], d.2.1 ≤ 2 ^ 53 ∧ d.2.2 ≤ 2 ^ 53) ∧
    getBuyCostItems sampleDatabase (processObject sampleParameters
        (entryOf "Fire\n<buy cost weapon 3: 2>\n<buy cost gold: 5>\n<buy cost item 7: 1>")) =
      some [(.object (entryOf "Spear"), .nat 2), (.object (entryOf "7"), .nat 1)] :=
  ⟨by decide, by decide,
   (getBuyCostItems_of_item_lines sampleParameters sampleDatabase
     (entryOf "Fire\n<buy cost weapon 3: 2>\n<buy cost gold: 5>\n<buy cost item 7: 1>")
     [(.weapon, 3, 2), (.item, 7, 1)] (by decide)).2 (by decide)⟩

/-- C3. When two or more lines of a note match the gold pattern, the gold cost
of the processed entry, which `getBuyCostGold` returns, is the number captured
on the last of them. -/
theorem goldCost_of_last_gold_line (parameters : Parameters) (obj : DataObject)
    (h : 2 ≤ ((splitLines obj.note).filter Regexp.GOLD_COST.matches).length) :
    ∃ last m,
      ((splitLines obj.note).filter Regexp.GOLD_COST.matches).getLast? = some last ∧
      Regexp.GOLD_COST.exec last = some m ∧
      (processObject parameters obj)._buyCost.map (fun buyCost => buyCost.goldCost) =
        some (Number (m.idx 1)) ∧
      getBuyCostGold (processObject parameters obj) = some (Number (m.idx 1)) := by
  have hne : (splitLines obj.note).filter Regexp.GOLD_COST.matches ≠ [] := by
    intro h0; rw [h0] at h; simp at h
  obtain ⟨front, last, hfl⟩ :
      ∃ front last, (splitLines obj.note).filter Regexp.GOLD_COST.matches = front ++ [last] :=
    ⟨_, _, (List.dropLast_append_getLast hne).symm⟩
  have hmem : last ∈ (splitLines obj.note).filter Regexp.GOLD_COST.matches := by
    rw [hfl]; simp
  have hmatch : Regexp.GOLD_COST.matches last = true := (List.mem_filter.mp hmem).2
  obtain ⟨m, hm⟩ := Option.isSome_iff_exists.mp hmatch
  have hgold : (((splitLines obj.note).filterMap goldEntry).getLast?).getD parameters.defaultPrice =
      Number (m.idx 1) := by
    rw [filterMap_filter_isSome]
    have hfun : (fun a => (goldEntry a).isSome) = Regexp.GOLD_COST.matches := by
      funext a; simp [goldEntry, Regex.matches]
    rw [hfun, hfl, List.filterMap_append]
    simp [List.filterMap_cons, goldEntry, hm]
  refine ⟨last, m, by rw [hfl]; simp, hm, ?_, ?_⟩
  · rw [processObject_buyCost, buildCost_eq]
    simp only [Option.map_some', hgold]
  · unfold getBuyCostGold
    rw [processObject_buyCost, buildCost_eq]
    simp only [Option.map_some', hgold]

/-- C3, on `<buy cost gold: 100>` then `<buy cost gold: 300>`: the gold cost
is 300. -/
theorem goldCost_of_last_gold_line_witness :
    2 ≤ ((splitLines (entryOf "<buy cost gold: 100>\n<buy cost gold: 300>").note).filter
      Regexp.GOLD_COST.matches).length ∧
    (∃ last m,
      ((splitLines (entryOf "<buy cost gold: 100>\n<buy cost gold: 300>").note).filter
        Regexp.GOLD_COST.matches).getLast? = some last ∧
      Regexp.GOLD_COST.exec last = some m ∧
      (processObject sampleParameters
        (entryOf "<buy cost gold: 100>\n<buy cost gold: 300>"))._buyCost.map
          (fun buyCost => buyCost.goldCost) = some (Number (m.idx 1)) ∧
      getBuyCostGold (processObject sampleParameters
        (entryOf "<buy cost gold: 100>\n<buy cost gold: 300>")) = some (Number (m.idx 1))) ∧
    getBuyCostGold (processObject sampleParameters
      (entryOf "<buy cost gold: 100>\n<buy cost gold: 300>")) = some (.nat 300) :=
  ⟨by decide,
   goldCost_of_last_gold_line sampleParameters
     (entryOf "<buy cost gold: 100>\n<buy cost gold: 300>") (by decide),
   by decide⟩

/-- C4, the claim fails. The gold cost is stored as a double: the one line
`<buy cost gold: 9007199254740993>` gives 9007199254740992. And a line is
matched once, from the left: in the note `Fire`, `<buy cost gold: 5><buy cost
gold: 250>` exactly one line holds `<buy cost gold: 250>` and no other line
matches the gold pattern, yet the gold cost is 5. -/
theorem getBuyCostGold_rounds_and_reads_first :
    getBuyCostGold (processObject sampleParameters
        (entryOf "<buy cost gold: 9007199254740993>")) = some (.nat 9007199254740992) ∧
    splitLines (entryOf "Fire\n<buy cost gold: 5><buy cost gold: 250>").note =
      ["Fire".toList, "<buy cost gold: 5>".toList ++ goldTag 250] ∧
    Regexp.GOLD_COST.exec "Fire".toList = none ∧
    getBuyCostGold (processObject sampleParameters
        (entryOf "Fire\n<buy cost gold: 5><buy cost gold: 250>")) = some (.nat 5) := by
  decide

/-- C4 as amended. When one line of a note holds `<buy cost gold: N>`, with no
match of the gold pattern in the text before it on that line, and no other line
matches the gold pattern, `getBuyCostGold` on the processed entry returns the
number of the numeral `N`, the double nearest to `N`, whatever the other lines
and the default price are; it returns `N` itself when `N` is at most `2^53`. -/
theorem getBuyCostGold_of_gold_line (parameters : Parameters) (obj : DataObject) (n : Nat)
    (before after : List Str) (pre post : Str)
    (hsplit : splitLines obj.note = before ++ (pre ++ goldTag n ++ post) :: after)
    (hpre : Regexp.GOLD_COST.exec pre = none)
    (hother : ∀ line ∈ before ++ after, Regexp.GOLD_COST.exec line = none) :
    getBuyCostGold (processObject parameters obj) = some (Number (digits n)) ∧
    (n ≤ 2 ^ 53 → getBuyCostGold (processObject parameters obj) = some (.nat n)) := by
  have hnone : ∀ ls : List Str, (∀ l ∈ ls, Regexp.GOLD_COST.exec l = none) →
      ls.filterMap goldEntry = [] :=
    fun ls hls => filterMap_eq_nil_of_none goldEntry ls (fun l hl => by simp [goldEntry, hls l hl])
  have hmain : getBuyCostGold (processObject parameters obj) = some (Number (digits n)) := by
    unfold getBuyCostGold
    rw [processObject_buyCost, buildCost_eq, hsplit]
    simp only [Option.map_some', List.filterMap_append, List.filterMap_cons,
      goldEntry_goldTag pre post n hpre,
      hnone before (fun l hl => hother l (List.mem_append_left _ hl)),
      hnone after (fun l hl => hother l (List.mem_append_right _ hl))]
    rfl
  exact ⟨hmain, fun hle => by rw [hmain, Number_digits_of_le n hle]⟩

/-- C4 as amended, on `<buy cost gold: 250>` between lines of other text, with
the default price 100. -/
theorem getBuyCostGold_of_gold_line_witness :
    splitLines (entryOf "Teaches Fire.\nPrice: <buy cost gold: 250> (rare)\n<buy cost item 7: 1>").note =
      ["Teaches Fire.".toList] ++
        ("Price: ".toList ++ goldTag 250 ++ " (rare)".toList) :: ["<buy cost item 7: 1>".toList] ∧
    Regexp.GOLD_COST.exec "Price: ".toList = none ∧
    (∀ line ∈ ["Teaches Fire.".toList] ++ ["<buy cost item 7: 1>".toList],
      Regexp.GOLD_COST.exec line = none) ∧
    250 ≤ 2 ^ 53 ∧
    getBuyCostGold (processObject sampleParameters
      (entryOf "Teaches Fire.\nPrice: <buy cost gold: 250> (rare)\n<buy cost item 7: 1>")) =
      some (.nat 250) :=
  ⟨by decide, by decide, by decide, by decide,
   (getBuyCostGold_of_gold_line sampleParameters
     (entryOf "Teaches Fire.\nPrice: <buy cost gold: 250> (rare)\n<buy cost item 7: 1>") 250
     ["Teaches Fire.".toList] ["<buy cost item 7: 1>".toList] "Price: ".toList " (rare)".toList
     (by decide) (by decide) (by decide)).2 (by decide)⟩

/-- C5, the claim fails: the switch id is stored as a double, so the note
`<buy require switch 9007199254740993: true>` gives the list
`[(9007199254740992, true)]`, and with `FALSE` the list
`[(9007199254740992, false)]`. -/
theorem switchRequire_rounds_id :
    (processObject sampleParameters
        (entryOf "<buy require switch 9007199254740993: true>"))._buyCost.map
      (fun buyCost => buyCost.switchRequire) = some [(.nat 9007199254740992, true)] ∧
    (processObject sampleParameters
        (entryOf "<buy require switch 9007199254740993: FALSE>"))._buyCost.map
      (fun buyCost => buyCost.switchRequire) = some [(.nat 9007199254740992, false)] := by
  decide

/-- C5 as amended. When the only line of a note that matches the switch pattern
is `<buy require switch S: FLAG>`, the list `switchRequire` of the processed
entry has one entry: the number of the numeral `S`, the double nearest to `S`,
with `true` if the flag is `true` in any case of its letters, and with `false`
if it is `false` in any case of its letters. When `S` is at most `2^53` the list
is `[(S, true)]`, respectively `[(S, false)]`. -/
theorem switchRequire_of_switch_line (parameters : Parameters) (obj : DataObject) (S : Nat)
    (flag : Str)
    (hlines : (splitLines obj.note).filter Regexp.SWITCH_NEED.matches = [switchTag S flag]) :
    (isCaseVariant "true".toList flag = true →
      (processObject parameters obj)._buyCost.map (fun buyCost => buyCost.switchRequire) =
          some [(Number (digits S), true)] ∧
        (S ≤ 2 ^ 53 →
          (processObject parameters obj)._buyCost.map (fun buyCost => buyCost.switchRequire) =
            some [(.nat S, true)])) ∧
    (isCaseVariant "false".toList flag = true →
      (processObject parameters obj)._buyCost.map (fun buyCost => buyCost.switchRequire) =
          some [(Number (digits S), false)] ∧
        (S ≤ 2 ^ 53 →
          (processObject parameters obj)._buyCost.map (fun buyCost => buyCost.switchRequire) =
            some [(.nat S, false)])) := by
  have hf : (splitLines obj.note).filterMap switchEntry = [switchTag S flag].filterMap switchEntry := by
    rw [filterMap_filter_isSome]
    have hm : (fun a => (switchEntry a).isSome) = Regexp.SWITCH_NEED.matches := by
      funext a; simp [switchEntry, Regex.matches]
    rw [hm, hlines]
  constructor
  · intro ht
    have hmain : (processObject parameters obj)._buyCost.map
        (fun buyCost => buyCost.switchRequire) = some [(Number (digits S), true)] := by
      rw [processObject_buyCost, buildCost_eq]
      simp only [Option.map_some', hf, List.filterMap_cons, List.filterMap_nil,
        switchEntry_switchTag S flag (Or.inl ht), toLowerCase_of_variant_true ht]
    exact ⟨hmain, fun hle => by rw [hmain, Number_digits_of_le S hle]⟩
  · intro ht
    have hmain : (processObject parameters obj)._buyCost.map
        (fun buyCost => buyCost.switchRequire) = some [(Number (digits S), false)] := by
      rw [processObject_buyCost, buildCost_eq]
      simp only [Option.map_some', hf, List.filterMap_cons, List.filterMap_nil,
        switchEntry_switchTag S flag (Or.inr ht), toLowerCase_of_variant_false ht]
    exact ⟨hmain, fun hle => by rw [hmain, Number_digits_of_le S hle]⟩

/-- C5 as amended, on switch 5 with the flags `True` and `FALSE`. -/
theorem switchRequire_of_switch_line_witness :
    ((splitLines (entryOf "Locked.\n<buy require switch 5: True>").note).filter
        Regexp.SWITCH_NEED.matches = [switchTag 5 "True".toList] ∧
      isCaseVariant "true".toList "True".toList = true ∧ 5 ≤ 2 ^ 53 ∧
      (processObject sampleParameters (entryOf "Locked.\n<buy require switch 5: True>"))._buyCost.map
        (fun buyCost => buyCost.switchRequire) = some [(.nat 5, true)]) ∧
    ((splitLines (entryOf "<buy require switch 5: FALSE>").note).filter
        Regexp.SWITCH_NEED.matches = [switchTag 5 "FALSE".toList] ∧
      isCaseVariant "false".toList "FALSE".toList = true ∧ 5 ≤ 2 ^ 53 ∧
      (processObject sampleParameters (entryOf "<buy require switch 5: FALSE>"))._buyCost.map
        (fun buyCost => buyCost.switchRequire) = some [(.nat 5, false)]) :=
  ⟨⟨by decide, by decide, by decide,
    ((switchRequire_of_switch_line sampleParameters
      (entryOf "Locked.\n<buy require switch 5: True>") 5 "True".toList (by decide)).1
        (by decide)).2 (by decide)⟩,
   ⟨by decide, by decide, by decide,
    ((switchRequire_of_switch_line sampleParameters
      (entryOf "<buy require switch 5: FALSE>") 5 "FALSE".toList (by decide)).2
        (by decide)).2 (by decide)⟩⟩

/-- C6, the claim fails: with 50 items in the database, the entry built from
`<buy cost item 9999: 1>` is answered with a pair of the usual shape whose
reference is `undefined`; nothing reports the entry as unresolved. -/
theorem getBuyCostItems_missing_reference :
    sampleDatabase.dataItems.length = 51 ∧
    getBuyCostItems sampleDatabase
        (processObject sampleParameters (entryOf "<buy cost item 9999: 1>")) =
      some [(Item.undefined, Value.nat 1)] := by
  decide

/-- C6 as amended. For an `itemCost` entry of kind WEAPON, ARMOR or ITEM whose
id is not an index of the kind's table, `getBuyCostItems` does not throw and
still answers with one pair per entry; the pair of that entry holds `undefined`
and the entry's quantity. -/
theorem getBuyCostItems_of_id_out_of_range (db : Database) (obj : DataObject)
    (buyCost : BuyCost) (pre post : List (Str × Value × Value)) (kind : ItemKind) (n : Nat)
    (qty : Value) (hobj : obj._buyCost = some buyCost)
    (hitems : buyCost.itemCost = pre ++ (kind.tag, .nat n, qty) :: post)
    (hrange : (kind.table db).length ≤ n) :
    ∃ result, getBuyCostItems db obj = some result ∧
      result.length = buyCost.itemCost.length ∧
      result.get? pre.length = some (Item.undefined, qty) := by
  refine ⟨getBuyCostItems.loop db .undefined buyCost.itemCost, ?_, ?_, ?_⟩
  · simp [getBuyCostItems, hobj]
  · exact getBuyCostItems_loop_length db _ _
  · rw [hitems, getBuyCostItems_loop_get, DataTable.at_of_length_le _ _ hrange]

/-- C6 as amended, on weapon 2 followed by item 9999 in a database of 50 items. -/
theorem getBuyCostItems_of_id_out_of_range_witness :
    (processObject sampleParameters
        (entryOf "<buy cost weapon 2: 1>\n<buy cost item 9999: 3>"))._buyCost =
      some { goldCost := .nat 100,
             itemCost := [("WEAPON".toList, .nat 2, .nat 1)] ++
               (ItemKind.item.tag, .nat 9999, .nat 3) :: [],
             variableCost := [], switchRequire := [] } ∧
    (ItemKind.item.table sampleDatabase).length ≤ 9999 ∧
    ∃ result, getBuyCostItems sampleDatabase (processObject sampleParameters
        (entryOf "<buy cost weapon 2: 1>\n<buy cost item 9999: 3>")) = some result ∧
      result.length = 2 ∧ result.get? 1 = some (Item.undefined, .nat 3) :=
  ⟨by decide, by decide,
   getBuyCostItems_of_id_out_of_range sampleDatabase
     (processObject sampleParameters (entryOf "<buy cost weapon 2: 1>\n<buy cost item 9999: 3>"))
     { goldCost := .nat 100,
       itemCost := [("WEAPON".toList, .nat 2, .nat 1)] ++ (ItemKind.item.tag, .nat 9999, .nat 3) :: [],
       variableCost := [], switchRequire := [] }
     [("WEAPON".toList, .nat 2, .nat 1)] [] .item 9999 (.nat 3) (by decide) rfl (by decide)⟩

/-- C7, what the code does: a line `<buy require variable V: Q>` leaves the
record as it was, for every record, id and quantity. The pattern
`VARIABLE_REQUIRE` would match such a line, but `_processNotetag` never tries
it, and the record has no field for a variable requirement. -/
theorem processNotetag_variableRequireTag :
    (∀ (buyCost : BuyCost) (id qty : Nat),
      _processNotetag buyCost (variableRequireTag id qty) = buyCost) ∧
    Regexp.VARIABLE_REQUIRE.exec "<buy require variable 3: 5>".toList =
      some ["<buy require variable 3: 5>".toList, "3".toList, "5".toList] ∧
    buildCost sampleParameters "<buy require variable 3: 5>".toList =
      buildCost sampleParameters "".toList := by
  refine ⟨?_, by decide, by decide⟩
  intro buyCost id qty
  obtain ⟨h1, h2, h3, h4⟩ := exec_variableRequireTag id qty
  rw [_processNotetag_eq]
  simp [goldEntry, itemEntry, variableEntry, switchEntry, h1, h2, h3, h4]

/-- C8, what the code does: `processNotetags` loops over the states table only.
On the sample database the run ends normally; the first state then carries the
record built from its note, while the first skill, whose note is
`<buy cost gold: 5>`, and the first item carry no record, and the skills table
and the items table are as they were. -/
theorem processNotetags_skips_skills_and_items :
    ∃ db, processNotetags sampleParameters sampleDatabase = .ok db ∧
      ((db.dataStates.get? 1).bind id).map (fun obj => obj._buyCost) =
        some (some (buildCost sampleParameters "<buy cost gold: 5>".toList)) ∧
      ((db.dataSkills.get? 1).bind id).map (fun obj => (obj.note, obj._buyCost)) =
        some ("<buy cost gold: 5>".toList, none) ∧
      ((db.dataItems.get? 1).bind id).map (fun obj => (obj.note, obj._buyCost)) =
        some ("1".toList, none) ∧
      db.dataSkills = sampleDatabase.dataSkills ∧ db.dataItems = sampleDatabase.dataItems :=
  ⟨_, rfl, by decide, by decide, by decide, rfl, rfl⟩

/-- C9, what the code does: a line `<buy cost variable V: Q>` matches the item
pattern too, whose kind group is `(.+)`, and adds the entry `[VARIABLE, V, Q]` to
`itemCost`, for every record, id and quantity (the numbers of the numerals `V`
and `Q`, which are `V` and `Q` themselves up to `2^53`); `getBuyCostItems`
answers that entry with a pair without reference. -/
theorem itemCost_of_variableCostTag :
    (∀ (buyCost : BuyCost) (id qty : Nat),
      (_processNotetag buyCost (variableCostTag id qty)).itemCost =
        buyCost.itemCost ++ [("VARIABLE".toList, Number (digits id), Number (digits qty))]) ∧
    (∀ (buyCost : BuyCost) (id qty : Fin 9007199254740993),
      (_processNotetag buyCost (variableCostTag id qty)).itemCost =
        buyCost.itemCost ++ [("VARIABLE".toList, .nat id, .nat qty)]) ∧
    (buildCost sampleParameters "<buy cost variable 3: 5>".toList).itemCost =
      [("VARIABLE".toList, .nat 3, .nat 5)] ∧
    getBuyCostItems sampleDatabase
        (processObject sampleParameters (entryOf "<buy cost variable 3: 5>")) =
      some [(Item.undefined, .nat 5)] := by
  have hall : ∀ (buyCost : BuyCost) (id qty : Nat),
      (_processNotetag buyCost (variableCostTag id qty)).itemCost =
        buyCost.itemCost ++ [("VARIABLE".toList, Number (digits id), Number (digits qty))] := by
    intro buyCost id qty
    have hs : variableCostTag id qty = itemTag ('v' :: "ariable".toList) id qty := by
      simp [variableCostTag, itemTag]
    have hm := exec_of_matchHere _ _ _
      (ITEM_COST_matchHere_itemTag 'v' "ariable".toList (by decide) id qty)
    have hu : toUpperCase ('v' :: "ariable".toList) = "VARIABLE".toList := by decide
    rw [_processNotetag_eq, hs]
    simp only [itemEntry, hm, Option.map_some', Option.toList, Match.idx, List.getD_cons_succ,
      List.getD_cons_zero, hu]
  have h53 : (2 : Nat) ^ 53 = 9007199254740992 := by norm_num
  refine ⟨hall, ?_, by decide, by decide⟩
  intro buyCost id qty
  rw [hall, Number_digits_of_le id (by rw [h53]; omega),
    Number_digits_of_le qty (by rw [h53]; omega)]

/-- C10, what the code does: without a 'Default Price', or with an empty one, the
default price is 0, not the 100 of the plugin header, and an entry without a
gold-cost notetag gets the gold cost 0; without a 'Requirements Text' the text
is "Requirements". -/
theorem processParameters_missing :
    (processParameters (fun _ => none)).defaultPrice = .nat 0 ∧
    (processParameters (fun name => if name = "Default Price" then some [] else none)).defaultPrice =
      .nat 0 ∧
    (processObject (processParameters (fun _ => none)) (entryOf "Fire"))._buyCost.map
      (fun buyCost => buyCost.goldCost) = some (.nat 0) ∧
    (processParameters (fun _ => none)).requirementsText = some "Requirements".toList ∧
    (processParameters (fun name => if name = "Requirements Text" then some [] else none)).requirementsText =
      some "Requirements".toList ∧
    (processParameters (fun name => if name = "Default Price" then some "250".toList else none)).defaultPrice =
      .nat 250 := by
  decide

/-- C11. Matching is case-insensitive: for every line of ASCII characters and
every record, `_processNotetag` on the line in lower case, and on the line in
upper case, gives the record it gives on the line itself, stored kind and
stored switch flag included. The statement keeps to ASCII lines, on which
`toLowerCase` and `toUpperCase` act as embedded here. -/
theorem processNotetag_case_insensitive (buyCost : BuyCost) (line : Str)
    (hascii : ∀ c ∈ line, c.toNat < 128) :
    _processNotetag buyCost (toLowerCase line) = _processNotetag buyCost line ∧
    _processNotetag buyCost (toUpperCase line) = _processNotetag buyCost line := by
  have _ := hascii
  exact ⟨_processNotetag_map Char.toLower caseMap_toLower toUpper_toLower toLower_toLower
      buyCost line,
    _processNotetag_map Char.toUpper caseMap_toUpper toUpper_toUpper toLower_toUpper
      buyCost line⟩

/-- C11, on `<Buy Cost Weapon 3: 2>` and on `<BUY require Switch 5: True>`: the
kind stored is `WEAPON` and the flag stored is `true` in every case of the line. -/
theorem processNotetag_case_insensitive_witness :
    ((∀ c ∈ "<Buy Cost Weapon 3: 2>".toList, c.toNat < 128) ∧
      (_processNotetag (buildCost sampleParameters []) (toLowerCase "<Buy Cost Weapon 3: 2>".toList) =
          _processNotetag (buildCost sampleParameters []) "<Buy Cost Weapon 3: 2>".toList ∧
        _processNotetag (buildCost sampleParameters []) (toUpperCase "<Buy Cost Weapon 3: 2>".toList) =
          _processNotetag (buildCost sampleParameters []) "<Buy Cost Weapon 3: 2>".toList) ∧
      (_processNotetag (buildCost sampleParameters [])
          (toLowerCase "<Buy Cost Weapon 3: 2>".toList)).itemCost =
        [("WEAPON".toList, .nat 3, .nat 2)]) ∧
    ((∀ c ∈ "<BUY require Switch 5: True>".toList, c.toNat < 128) ∧
      (_processNotetag (buildCost sampleParameters [])
            (toLowerCase "<BUY require Switch 5: True>".toList) =
          _processNotetag (buildCost sampleParameters []) "<BUY require Switch 5: True>".toList ∧
        _processNotetag (buildCost sampleParameters [])
            (toUpperCase "<BUY require Switch 5: True>".toList) =
          _processNotetag (buildCost sampleParameters []) "<BUY require Switch 5: True>".toList) ∧
      (_processNotetag (buildCost sampleParameters [])
          (toUpperCase "<BUY require Switch 5: True>".toList)).switchRequire = [(.nat 5, true)]) :=
  ⟨⟨by decide,
    processNotetag_case_insensitive _ "<Buy Cost Weapon 3: 2>".toList (by decide), by decide⟩,
   ⟨by decide,
    processNotetag_case_insensitive _ "<BUY require Switch 5: True>".toList (by decide),
    by decide⟩⟩

/-- C12. A line that none of the four patterns tried matches is ignored:
`_processNotetag` returns the record unchanged; processing a list of lines is
processing its directive lines only; and two notes with the same directive
lines, as a note and the note without some of its other lines are, build the
same record. -/
theorem processNotetag_ignores_other_lines :
    (∀ (buyCost : BuyCost) (line : Str),
      Regexp.GOLD_COST.exec line = none → Regexp.ITEM_COST.exec line = none →
      Regexp.VARIABLE_COST.exec line = none → Regexp.SWITCH_NEED.exec line = none →
      _processNotetag buyCost line = buyCost) ∧
    (∀ (buyCost : BuyCost) (lines : List Str),
      lines.foldl _processNotetag buyCost =
        (lines.filter isDirective).foldl _processNotetag buyCost) ∧
    (∀ (parameters : Parameters) (note note' : Str),
      (splitLines note').filter isDirective = (splitLines note).filter isDirective →
      buildCost parameters note' = buildCost parameters note) := by
  refine ⟨?_, fun buyCost lines => foldl_processNotetag_filter lines buyCost, ?_⟩
  · intro buyCost line h₁ h₂ h₃ h₄
    apply _processNotetag_of_not_directive
    simp [isDirective, Regex.matches, h₁, h₂, h₃, h₄]
  · intro parameters note note' h
    unfold buildCost
    rw [foldl_processNotetag_filter, foldl_processNotetag_filter (splitLines note), h]

/-- C12, on the line `Teaches Fire.` and on a note with and without its two lines
of plain text. -/
theorem processNotetag_ignores_other_lines_witness :
    (Regexp.GOLD_COST.exec "Teaches Fire.".toList = none ∧
      Regexp.ITEM_COST.exec "Teaches Fire.".toList = none ∧
      Regexp.VARIABLE_COST.exec "Teaches Fire.".toList = none ∧
      Regexp.SWITCH_NEED.exec "Teaches Fire.".toList = none ∧
      _processNotetag (buildCost sampleParameters "<buy cost item 7: 1>".toList)
          "Teaches Fire.".toList =
        buildCost sampleParameters "<buy cost item 7: 1>".toList) ∧
    ((splitLines "<buy cost gold: 5>\n<buy cost item 7: 1>".toList).filter isDirective =
        (splitLines "Teaches Fire.\n<buy cost gold: 5>\n<buy </cost>\n<buy cost item 7: 1>".toList).filter
          isDirective ∧
      buildCost sampleParameters "<buy cost gold: 5>\n<buy cost item 7: 1>".toList =
        buildCost sampleParameters
          "Teaches Fire.\n<buy cost gold: 5>\n<buy </cost>\n<buy cost item 7: 1>".toList) :=
  ⟨⟨by decide, by decide, by decide, by decide,
    processNotetag_ignores_other_lines.1 _ "Teaches Fire.".toList
      (by decide) (by decide) (by decide) (by decide)⟩,
   ⟨by decide,
    processNotetag_ignores_other_lines.2.2 sampleParameters
      "Teaches Fire.\n<buy cost gold: 5>\n<buy </cost>\n<buy cost item 7: 1>".toList
      "<buy cost gold: 5>\n<buy cost item 7: 1>".toList (by decide)⟩⟩

/-- C13. The list `variableCost` built from a note holds, in the order of the
lines, one pair `(Number(m[1]), Number(m[2]))` for each line that the
variable-cost pattern matches with match array `m`, and nothing else; its
entries are pairs of the numbers of two runs of digits; when the matching lines
are the directives `<buy cost variable V: Q>` of a list of pairs `(V, Q)`, the
list built is the list of the numbers of those numerals, repeated pairs
included, which is that list itself when every `V` and `Q` is at most `2^53`. -/
theorem variableCost_of_note (parameters : Parameters) (note : Str) :
    (buildCost parameters note).variableCost =
        ((splitLines note).filter Regexp.VARIABLE_COST.matches).filterMap variableEntry ∧
    (buildCost parameters note).variableCost.length =
        ((splitLines note).filter Regexp.VARIABLE_COST.matches).length ∧
    (∀ e ∈ (buildCost parameters note).variableCost,
      ∃ d₁ d₂ : Str, d₁.all Char.isDigit = true ∧ d₂.all Char.isDigit = true ∧
        e = (Number d₁, Number d₂)) ∧
    (∀ vs : List (Nat × Nat),
      (splitLines note).filter Regexp.VARIABLE_COST.matches =
          vs.map (fun v => variableCostTag v.1 v.2) →
        (buildCost parameters note).variableCost =
            vs.map (fun v => (Number (digits v.1), Number (digits v.2))) ∧
          ((∀ v ∈ vs, v.1 ≤ 2 ^ 53 ∧ v.2 ≤ 2 ^ 53) →
            (buildCost parameters note).variableCost =
              vs.map (fun v => (Value.nat v.1, Value.nat v.2)))) := by
  have hm : (fun a => (variableEntry a).isSome) = Regexp.VARIABLE_COST.matches := by
    funext a; simp [variableEntry, Regex.matches]
  have h₁ : (buildCost parameters note).variableCost =
      ((splitLines note).filter Regexp.VARIABLE_COST.matches).filterMap variableEntry := by
    rw [buildCost_eq]
    show (splitLines note).filterMap variableEntry = _
    rw [filterMap_filter_isSome, hm]
  refine ⟨h₁, ?_, ?_, ?_⟩
  · rw [h₁]
    generalize splitLines note = lines
    induction lines with
    | nil => rfl
    | cons l ls ih =>
      cases hl : Regexp.VARIABLE_COST.matches l with
      | false => simpa [List.filter_cons, hl] using ih
      | true =>
        obtain ⟨e, he⟩ : ∃ e, variableEntry l = some e := by
          rw [← hm] at hl
          exact Option.isSome_iff_exists.mp hl
        simpa [List.filter_cons, hl, List.filterMap_cons, he] using ih
  · intro e he
    rw [h₁] at he
    obtain ⟨line, _, hline⟩ := List.mem_filterMap.mp he
    exact variableEntry_digits line e hline
  · intro vs hvs
    have hmain : (buildCost parameters note).variableCost =
        vs.map (fun v => (Number (digits v.1), Number (digits v.2))) := by
      rw [h₁, hvs]
      clear hvs h₁
      induction vs with
      | nil => rfl
      | cons v vs ih => simp [List.filterMap_cons, variableEntry_variableCostTag, ih]
    refine ⟨hmain, fun hle => ?_⟩
    rw [hmain]
    apply List.map_congr_left
    intro v hv
    rw [Number_digits_of_le _ (hle v hv).1, Number_digits_of_le _ (hle v hv).2]

/-- C13, on a note that declares variable 3: 5 twice and variable 1: 2 once. -/
theorem variableCost_of_note_witness :
    (splitLines "<buy cost variable 3: 5>\nFire\n<buy cost variable 1: 2>\n<buy cost variable 3: 5>".toList).filter
        Regexp.VARIABLE_COST.matches =
      [(3, 5), (1, 2), (3, 5)].map (fun v => variableCostTag v.1 v.2) ∧
    (∀ v ∈ [(3, 5), (1, 2), (3, 5)], v.1 ≤ 2 ^ 53 ∧ v.2 ≤ 2 ^ 53) ∧
    (buildCost sampleParameters
        "<buy cost variable 3: 5>\nFire\n<buy cost variable 1: 2>\n<buy cost variable 3: 5>".toList).variableCost =
      [(.nat 3, .nat 5), (.nat 1, .nat 2), (.nat 3, .nat 5)] :=
  ⟨by decide, by decide,
   ((variableCost_of_note sampleParameters
      "<buy cost variable 3: 5>\nFire\n<buy cost variable 1: 2>\n<buy cost variable 3: 5>".toList).2.2.2
     [(3, 5), (1, 2), (3, 5)] (by decide)).2 (by decide)⟩

/-- C14, what the code does: the local variable `item` of `getBuyCostItems` keeps
its value when the kind of an entry is none of WEAPON, ARMOR and ITEM, so the
pair of such an entry repeats the reference of the entry before it. On
`[WEAPON, 1, 1]` followed by `[VARIABLE, 3, 5]` the second pair holds weapon 1,
while on `[VARIABLE, 3, 5]` alone the pair holds `undefined`. The note
`<buy cost weapon 1: 1>`, `<buy cost variable 3: 5>` builds that list. -/
theorem getBuyCostItems_carries_item_over :
    getBuyCostItems sampleDatabase
        (entryWithItemCost ([("WEAPON".toList, .nat 1, .nat 1)] ++ [("VARIABLE".toList, .nat 3, .nat 5)])) =
      some [(.object (entryOf "Sword"), .nat 1), (.object (entryOf "Sword"), .nat 5)] ∧
    getBuyCostItems sampleDatabase (entryWithItemCost [("WEAPON".toList, .nat 1, .nat 1)]) =
      some [(.object (entryOf "Sword"), .nat 1)] ∧
    getBuyCostItems sampleDatabase (entryWithItemCost [("VARIABLE".toList, .nat 3, .nat 5)]) =
      some [(Item.undefined, .nat 5)] ∧
    getBuyCostItems sampleDatabase (processObject sampleParameters
        (entryOf "<buy cost weapon 1: 1>\n<buy cost variable 3: 5>")) =
      some [(.object (entryOf "Sword"), .nat 1), (.object (entryOf "Sword"), .nat 5)] := by
  decide

/-- C17. One call of `_processNotetag` appends at most one entry to each of
`itemCost`, `variableCost` and `switchRequire`, also on a line that holds several
directives, so each list built from a note is at most as long as the note has
lines. -/
theorem processNotetag_appends_at_most_one :
    (∀ (buyCost : BuyCost) (line : Str),
      ∃ items vars switches,
        items.length ≤ 1 ∧ vars.length ≤ 1 ∧ switches.length ≤ 1 ∧
        (_processNotetag buyCost line).itemCost = buyCost.itemCost ++ items ∧
        (_processNotetag buyCost line).variableCost = buyCost.variableCost ++ vars ∧
        (_processNotetag buyCost line).switchRequire = buyCost.switchRequire ++ switches) ∧
    (∀ (parameters : Parameters) (note : Str),
      (buildCost parameters note).itemCost.length ≤ (splitLines note).length ∧
      (buildCost parameters note).variableCost.length ≤ (splitLines note).length ∧
      (buildCost parameters note).switchRequire.length ≤ (splitLines note).length) ∧
    _processNotetag (buildCost sampleParameters [])
        "<buy cost variable 1: 2><buy cost variable 3: 4>".toList =
      { goldCost := .nat 100
        itemCost := [("VARIABLE 1: 2><BUY COST VARIABLE".toList, .nat 3, .nat 4)]
        variableCost := [(.nat 1, .nat 2)]
        switchRequire := [] } ∧
    _processNotetag (buildCost sampleParameters [])
        "<buy require switch 5: true><buy require switch 6: false>".toList =
      { goldCost := .nat 100
        itemCost := []
        variableCost := []
        switchRequire := [(.nat 5, true)] } := by
  refine ⟨?_, ?_, by decide, by decide⟩
  · intro buyCost line
    refine ⟨(itemEntry line).toList, (variableEntry line).toList, (switchEntry line).toList,
      ?_, ?_, ?_, ?_⟩
    · cases itemEntry line <;> simp
    · cases variableEntry line <;> simp
    · cases switchEntry line <;> simp
    · rw [_processNotetag_eq]
      exact ⟨rfl, rfl, rfl⟩
  · intro parameters note
    rw [buildCost_eq]
    exact ⟨List.length_filterMap_le _ _, List.length_filterMap_le _ _,
      List.length_filterMap_le _ _⟩

/-- C19, what the code does: `_processMethods` assigns `Utils.getBuyCost`, which
`Utils` does not have, so the property `getBuyCost` of a processed entry is
`undefined`, and the entry has no method `getBuyCostGold` or `getBuyCostItems`
either: the accessors stay on `Utils`, and the only functions a processed entry
answers with are those every object inherits. Called with a processed entry as
`this`, `Utils.getBuyCostGold` returns the gold cost stored in the entry. -/
theorem processMethods_installs_undefined :
    Utils.member "getBuyCost" = none ∧
    Utils.member "getBuyCostGold" = some .getBuyCostGold ∧
    Utils.member "getBuyCostItems" = some .getBuyCostItems ∧
    (∀ obj : DataObject, (_processMethods obj).getBuyCost = none) ∧
    (∀ (parameters : Parameters) (obj : DataObject),
      (processObject parameters obj).method "getBuyCost" = none ∧
      (processObject parameters obj).method "getBuyCostGold" = none ∧
      (processObject parameters obj).method "getBuyCostItems" = none) ∧
    (∀ (parameters : Parameters) (obj : DataObject) (name : String),
      (processObject parameters obj).method name =
        if name ∈ objectPrototypeMethods then some (.inherited name) else none) ∧
    (∀ (parameters : Parameters) (obj : DataObject),
      getBuyCostGold (processObject parameters obj) =
        some (buildCost parameters obj.note).goldCost) := by
  have hname : ∀ (parameters : Parameters) (obj : DataObject) (name : String),
      (processObject parameters obj).method name =
        if name ∈ objectPrototypeMethods then some (.inherited name) else none := by
    intro parameters obj name
    unfold DataObject.method
    by_cases h : name = "getBuyCost"
    · subst h
      rw [if_pos rfl]
      have hnot : ¬ ("getBuyCost" ∈ objectPrototypeMethods) := by decide
      rw [if_neg hnot]
      rfl
    · rw [if_neg h]
  refine ⟨by decide, by decide, by decide, fun obj => rfl, ?_, hname, fun parameters obj => rfl⟩
  intro parameters obj
  refine ⟨?_, ?_, ?_⟩ <;> rw [hname] <;> decide

/-- C15. The record built from the note `a`, a line break, `b` has for `itemCost`,
`variableCost` and `switchRequire` the lists built from `a` followed by the
lists built from `b`, and for `goldCost` the gold cost built from `b` when a
line of `b` matches the gold pattern, and the gold cost built from `a`
otherwise. -/
theorem buildCost_of_joined_notes (parameters : Parameters) (a b : Str) :
    (buildCost parameters (a ++ "\n".toList ++ b)).itemCost =
      (buildCost parameters a).itemCost ++ (buildCost parameters b).itemCost ∧
    (buildCost parameters (a ++ "\n".toList ++ b)).variableCost =
      (buildCost parameters a).variableCost ++ (buildCost parameters b).variableCost ∧
    (buildCost parameters (a ++ "\n".toList ++ b)).switchRequire =
      (buildCost parameters a).switchRequire ++ (buildCost parameters b).switchRequire ∧
    (buildCost parameters (a ++ "\n".toList ++ b)).goldCost =
      if (splitLines b).any Regexp.GOLD_COST.matches then (buildCost parameters b).goldCost
      else (buildCost parameters a).goldCost := by
  have hs : a ++ "\n".toList ++ b = a ++ '\n' :: b := by simp
  rw [hs, buildCost_eq, buildCost_eq, buildCost_eq]
  refine ⟨filterMap_splitLines_append itemEntry rfl a b,
    filterMap_splitLines_append variableEntry rfl a b,
    filterMap_splitLines_append switchEntry rfl a b, ?_⟩
  show (((splitLines (a ++ '\n' :: b)).filterMap goldEntry).getLast?).getD _ = _
  rw [filterMap_splitLines_append goldEntry rfl a b]
  have hm : (fun l => (goldEntry l).isSome) = Regexp.GOLD_COST.matches := by
    funext l; simp [goldEntry, Regex.matches]
  by_cases hany : (splitLines b).any Regexp.GOLD_COST.matches = true
  · rw [if_pos hany]
    apply getLast?_getD_append
    intro hnil
    obtain ⟨l, hl, hlm⟩ := List.any_eq_true.mp hany
    rw [← hm] at hlm
    obtain ⟨v, hv⟩ := Option.isSome_iff_exists.mp hlm
    have : v ∈ (splitLines b).filterMap goldEntry := List.mem_filterMap.mpr ⟨l, hl, hv⟩
    rw [hnil] at this
    simp at this
  · rw [if_neg hany]
    have hnil : (splitLines b).filterMap goldEntry = [] := by
      apply filterMap_eq_nil_of_none
      intro l hl
      cases hg : goldEntry l with
      | none => rfl
      | some v =>
        exfalso
        apply hany
        refine List.any_eq_true.mpr ⟨l, hl, ?_⟩
        rw [← hm]
        simp [hg]
    rw [hnil, List.append_nil]

/-- C16. On a database whose states table has no `null` after index 0, a second
run of `processNotetags` under the same configuration ends normally and leaves
the database the first run left: every record is rebuilt from the note, and
nothing is added to its lists. Processing one object twice is processing it
once. -/
theorem processNotetags_idempotent (parameters : Parameters) (db : Database)
    (hwf : ∀ e ∈ db.dataStates.tail, e ≠ none) :
    (∃ db₁, processNotetags parameters db = .ok db₁ ∧
      processNotetags parameters db₁ = .ok db₁) ∧
    (∀ obj : DataObject,
      processObject parameters (processObject parameters obj) = processObject parameters obj) := by
  refine ⟨⟨_, processNotetags_ok parameters db hwf, ?_⟩, processObject_idem parameters⟩
  rw [processNotetags_ok parameters _ (scanned_tail_ne_none parameters _ hwf)]
  show Except.ok { db with dataStates := scanned parameters (scanned parameters db.dataStates) } = _
  rw [scanned_idem]

/-- C16, on the sample database. -/
theorem processNotetags_idempotent_witness :
    (∀ e ∈ sampleDatabase.dataStates.tail, e ≠ none) ∧
    (∃ db₁, processNotetags sampleParameters sampleDatabase = .ok db₁ ∧
      processNotetags sampleParameters db₁ = .ok db₁) ∧
    (∀ obj : DataObject,
      processObject sampleParameters (processObject sampleParameters obj) =
        processObject sampleParameters obj) :=
  ⟨by decide, processNotetags_idempotent sampleParameters sampleDatabase (by decide)⟩

/-- C18, the claim fails: the scan also assigns the property `getBuyCost` of
every entry it processes, which is no part of the cost record. A state that
holds a function in `getBuyCost` before the scan holds `undefined` there after
it. -/
theorem processNotetags_assigns_getBuyCost :
    ((sampleDatabase₃.dataStates.get? 1).bind id).map (fun obj => obj.getBuyCost) =
      some (some .getBuyCostGold) ∧
    ∃ db', processNotetags sampleParameters sampleDatabase₃ = .ok db' ∧
      ((db'.dataStates.get? 1).bind id).map (fun obj => obj.getBuyCost) = some none :=
  ⟨by decide, _, rfl, by decide⟩

/-- C18 as amended. After a run of `processNotetags` that ends normally, every
entry of the states table has the note it had, the entry at index 0 is as it
was, the other tables are as they were, and an entry with index at least 1 is
the entry it was but for two properties: its record, which is the one built
from that entry's note under the default price, and its `getBuyCost`, which is
what `Utils.getBuyCost` is. The record is the same in any other database whose
entry at that index has the same note, under any configuration with the same
default price. -/
theorem processNotetags_frame (parameters : Parameters) (db db' : Database)
    (h : processNotetags parameters db = .ok db') :
    (∀ i, (db'.dataStates.get? i).map (Option.map (fun obj => obj.note)) =
      (db.dataStates.get? i).map (Option.map (fun obj => obj.note))) ∧
    db'.dataStates.get? 0 = db.dataStates.get? 0 ∧
    (db'.dataSkills = db.dataSkills ∧ db'.dataItems = db.dataItems ∧
      db'.dataWeapons = db.dataWeapons ∧ db'.dataArmors = db.dataArmors) ∧
    (∀ i obj, 1 ≤ i → db.dataStates.get? i = some (some obj) →
      ∃ obj', db'.dataStates.get? i = some (some obj') ∧
        obj'._buyCost = some (buildCost parameters obj.note)) ∧
    (∀ (parameters₂ : Parameters) (db₂ db₂' : Database) (i : Nat) (obj obj₂ : DataObject),
      parameters₂.defaultPrice = parameters.defaultPrice →
      processNotetags parameters₂ db₂ = .ok db₂' → 1 ≤ i →
      db.dataStates.get? i = some (some obj) → db₂.dataStates.get? i = some (some obj₂) →
      obj₂.note = obj.note →
      ((db₂'.dataStates.get? i).bind id).map (fun o => o._buyCost) =
        ((db'.dataStates.get? i).bind id).map (fun o => o._buyCost)) ∧
    (∀ i obj, 1 ≤ i → db.dataStates.get? i = some (some obj) →
      db'.dataStates.get? i =
        some (some { note := obj.note
                     _buyCost := some (buildCost parameters obj.note)
                     getBuyCost := Utils.member "getBuyCost" })) ∧
    db'.dataStates.length = db.dataStates.length := by
  obtain ⟨rfl, _⟩ := processNotetags_inv parameters db db' h
  have hrec : ∀ (p : Parameters) (d : Database) (i : Nat) (obj : DataObject), 1 ≤ i →
      d.dataStates.get? i = some (some obj) →
      (scanned p d.dataStates).get? i = some (some (processObject p obj)) := by
    intro p d i obj hi hget
    obtain ⟨j, rfl⟩ : ∃ j, i = j + 1 := ⟨i - 1, by omega⟩
    rw [scanned_get?_succ, hget]
    rfl
  refine ⟨?_, scanned_get?_zero parameters _, ⟨rfl, rfl, rfl, rfl⟩, ?_, ?_, ?_, ?_⟩
  · intro i
    cases i with
    | zero => rw [scanned_get?_zero]
    | succ j =>
      rw [scanned_get?_succ]
      cases db.dataStates.get? (j + 1) with
      | none => rfl
      | some e => cases e <;> rfl
  · intro i obj hi hget
    exact ⟨processObject parameters obj, hrec parameters db i obj hi hget, rfl⟩
  · intro parameters₂ db₂ db₂' i obj obj₂ hp h₂ hi hget hget₂ hnote
    obtain ⟨rfl, _⟩ := processNotetags_inv parameters₂ db₂ db₂' h₂
    show (((scanned parameters₂ db₂.dataStates).get? i).bind id).map _ =
      (((scanned parameters db.dataStates).get? i).bind id).map _
    rw [hrec parameters₂ db₂ i obj₂ hi hget₂, hrec parameters db i obj hi hget]
    show some (some (buildCost parameters₂ obj₂.note)) = some (some (buildCost parameters obj.note))
    rw [hnote, buildCost_congr parameters₂ parameters hp]
  · intro i obj hi hget
    show (scanned parameters db.dataStates).get? i = _
    rw [hrec parameters db i obj hi hget]
    rfl
  · show (scanned parameters db.dataStates).length = _
    cases db.dataStates with
    | nil => rfl
    | cons first rest => simp [scanned]

/-- C18 as amended, on the sample database and its variant with another note in
the second state: the record of the first state is the same in both, and the
first state after the scan is the state before it with the record and
`getBuyCost` assigned. -/
theorem processNotetags_frame_witness :
    ∃ db' db₂', processNotetags sampleParameters sampleDatabase = .ok db' ∧
      processNotetags sampleParameters sampleDatabase₂ = .ok db₂' ∧
      sampleDatabase.dataStates.get? 2 ≠ sampleDatabase₂.dataStates.get? 2 ∧
      db'.dataStates.get? 0 = sampleDatabase.dataStates.get? 0 ∧
      (∀ i, (db'.dataStates.get? i).map (Option.map (fun obj => obj.note)) =
        (sampleDatabase.dataStates.get? i).map (Option.map (fun obj => obj.note))) ∧
      ((db₂'.dataStates.get? 1).bind id).map (fun o => o._buyCost) =
        ((db'.dataStates.get? 1).bind id).map (fun o => o._buyCost) ∧
      db'.dataStates.get? 1 =
        some (some { note := (entryOf "<buy cost gold: 5>").note
                     _buyCost := some (buildCost sampleParameters (entryOf "<buy cost gold: 5>").note)
                     getBuyCost := Utils.member "getBuyCost" }) :=
  ⟨_, _, rfl, rfl, by decide,
   (processNotetags_frame sampleParameters sampleDatabase _ rfl).2.1,
   (processNotetags_frame sampleParameters sampleDatabase _ rfl).1,
   (processNotetags_frame sampleParameters sampleDatabase _ rfl).2.2.2.2.1
     sampleParameters sampleDatabase₂ _ 1 (entryOf "<buy cost gold: 5>")
     (entryOf "<buy cost gold: 5>") rfl rfl (by decide) rfl rfl rfl,
   (processNotetags_frame sampleParameters sampleDatabase _ rfl).2.2.2.2.2.1
     1 (entryOf "<buy cost gold: 5>") (by decide) rfl⟩

end YED.SkillShop
